import Mathlib

/-!
# Verification of the redb-open mesh networking core

Shallow embedding, in Lean 4, of the parts of the `redb-open` mesh node that
the specification's claims are about:

* the in-memory deduplication backend (`services/mesh/storage/src/backend/mem.rs`),
* the reliability layer's data-frame processing (`services/mesh/session/src/reliability.rs`),
* the wire frame codec (`services/mesh/wire/src/frame.rs`, `header.rs`),
* the topology database's Dijkstra route computation
  (`services/mesh/topology/src/link_state/database.rs`),
* the routing table and ECMP selection (`services/mesh/routing/src/table.rs`,
  `ecmp.rs`, `next_hop.rs`, `router.rs`),
* the session manager's broadcast flooding (`services/mesh/session/src/manager.rs`),
* the Send RPC validation path (`services/mesh/grpc/src/data.rs`),
* the message queue's retry processor (`services/mesh/grpc/src/message_queue.rs`).

Rust machine integers are modelled as `Nat` (with explicit bounds where overflow
or truncation matters), byte buffers as `List Nat`, hash maps (`DashMap`,
`HashMap`) as association lists, and hash sets as duplicate-free lists.
Fallible operations return `Except`/`Option` mirroring `Result`/`Option`.
-/

set_option maxRecDepth 4000

namespace Mesh

/-! ## Association-list helpers (model of DashMap / HashMap per-key access) -/

/-- Look up a key in an association list, returning a default when absent
(models `map.get(&k).map(|v| *v).unwrap_or(dflt)`). -/
def lookupD {α : Type} (m : List (Nat × α)) (k : Nat) (dflt : α) : α :=
  match m with
  | [] => dflt
  | e :: rest => if e.1 = k then e.2 else lookupD rest k dflt

/-- Look up a key in an association list (models `map.get(&k)`). -/
def lookupOpt {α : Type} (m : List (Nat × α)) (k : Nat) : Option α :=
  match m with
  | [] => none
  | e :: rest => if e.1 = k then some e.2 else lookupOpt rest k

/-- Insert or overwrite a key (models `map.insert(k, v)`). -/
def insertKV {α : Type} (m : List (Nat × α)) (k : Nat) (v : α) : List (Nat × α) :=
  match m with
  | [] => [(k, v)]
  | e :: rest => if e.1 = k then (k, v) :: rest else e :: insertKV rest k v

theorem lookupD_insertKV_self {α : Type} (m : List (Nat × α)) (k : Nat) (v dflt : α) :
    lookupD (insertKV m k v) k dflt = v := by
  induction m with
  | nil => simp [insertKV, lookupD]
  | cons e rest ih =>
    by_cases h : e.1 = k
    · simp [insertKV, h, lookupD]
    · simp [insertKV, h, lookupD, ih]

theorem lookupD_insertKV_ne {α : Type} (m : List (Nat × α)) (k k' : Nat) (v dflt : α)
    (h : k' ≠ k) : lookupD (insertKV m k v) k' dflt = lookupD m k' dflt := by
  have hkk : k ≠ k' := fun hh => h hh.symm
  induction m with
  | nil => simp [insertKV, lookupD, hkk]
  | cons e rest ih =>
    by_cases he : e.1 = k
    · subst he
      simp [insertKV, lookupD, hkk]
    · simp only [insertKV, if_neg he]
      by_cases he' : e.1 = k'
      · simp [lookupD, he']
      · simp [lookupD, he', ih]

theorem lookupOpt_insertKV_self {α : Type} (m : List (Nat × α)) (k : Nat) (v : α) :
    lookupOpt (insertKV m k v) k = some v := by
  induction m with
  | nil => simp [insertKV, lookupOpt]
  | cons e rest ih =>
    by_cases h : e.1 = k
    · simp [insertKV, h, lookupOpt]
    · simp [insertKV, h, lookupOpt, ih]

theorem lookupOpt_insertKV_ne {α : Type} (m : List (Nat × α)) (k k' : Nat) (v : α)
    (h : k' ≠ k) : lookupOpt (insertKV m k v) k' = lookupOpt m k' := by
  have hkk : k ≠ k' := fun hh => h hh.symm
  induction m with
  | nil => simp [insertKV, lookupOpt, hkk]
  | cons e rest ih =>
    by_cases he : e.1 = k
    · subst he
      simp [insertKV, lookupOpt, hkk]
    · simp only [insertKV, if_neg he]
      by_cases he' : e.1 = k'
      · simp [lookupOpt, he']
      · simp [lookupOpt, he', ih]

theorem mem_insertKV {α : Type} {m : List (Nat × α)} {k : Nat} {v : α} {e : Nat × α}
    (h : e ∈ insertKV m k v) : e = (k, v) ∨ e ∈ m := by
  induction m with
  | nil => simpa [insertKV] using h
  | cons e' rest ih =>
    by_cases he : e'.1 = k
    · simp only [insertKV, if_pos he, List.mem_cons] at h
      rcases h with h | h
      · exact Or.inl h
      · exact Or.inr (List.mem_cons_of_mem _ h)
    · simp only [insertKV, if_neg he, List.mem_cons] at h
      rcases h with h | h
      · exact Or.inr (by simp [h])
      · rcases ih h with h' | h'
        · exact Or.inl h'
        · exact Or.inr (List.mem_cons_of_mem _ h')

theorem lookupOpt_mem {α : Type} {m : List (Nat × α)} {k : Nat} {v : α}
    (h : lookupOpt m k = some v) : (k, v) ∈ m := by
  induction m with
  | nil => simp [lookupOpt] at h
  | cons e rest ih =>
    by_cases he : e.1 = k
    · simp only [lookupOpt, if_pos he, Option.some.injEq] at h
      have : e = (k, v) := by
        cases e
        simp_all
      rw [this]
      exact List.mem_cons_self _ _

    · simp only [lookupOpt, if_neg he] at h
      exact List.mem_cons_of_mem _ (ih h)

/-! ## In-memory deduplication backend

Embedding of `MemoryDedup` from `src/services/mesh/storage/src/backend/mem.rs`.
`cum_processed : DashMap<Peer, u64>` and `gap_window : DashMap<Peer, HashSet<u64>>`
are modelled as association lists keyed by the peer id; the gap `HashSet` is a
duplicate-free list of message ids. -/

structure MemoryDedup where
  cum_processed : List (Nat × Nat)
  gap_window : List (Nat × List Nat)
  window_size : Nat
deriving Repr, DecidableEq

namespace MemoryDedup

/-- `self.cum_processed.get(&peer).map(|v| *v).unwrap_or(0)`. -/
def cumOf (d : MemoryDedup) (peer : Nat) : Nat :=
  lookupD d.cum_processed peer 0

/-- The gap set of a peer (empty when no entry exists, which is observationally
identical to the Rust `if let Some(gaps) … else …` paths). -/
def gapsOf (d : MemoryDedup) (peer : Nat) : List Nat :=
  lookupD d.gap_window peer []

theorem cumOf_mk (cp : List (Nat × Nat)) (gw : List (Nat × List Nat)) (w p : Nat) :
    (MemoryDedup.mk cp gw w).cumOf p = lookupD cp p 0 := rfl

theorem gapsOf_mk (cp : List (Nat × Nat)) (gw : List (Nat × List Nat)) (w p : Nat) :
    (MemoryDedup.mk cp gw w).gapsOf p = lookupD gw p [] := rfl

/-- `MemoryDedup::is_processed` (mem.rs:160-174). -/
def is_processed (d : MemoryDedup) (peer msg_id : Nat) : Bool :=
  if msg_id ≤ d.cumOf peer then true
  else decide (msg_id ∈ d.gapsOf peer)

/-- The `while gaps.remove(&(cum + 1)) { cum += 1; }` absorption loop inside
`MemoryDedup::mark_processed`: repeatedly remove the next contiguous id from the
gap set and advance the watermark. -/
def absorbGaps (gaps : List Nat) (cum : Nat) : List Nat × Nat :=
  if h : (cum + 1) ∈ gaps then
    absorbGaps (gaps.erase (cum + 1)) (cum + 1)
  else (gaps, cum)
termination_by gaps.length
decreasing_by
  exact (List.length_erase_of_mem h) ▸ Nat.sub_lt (List.length_pos_of_mem h) Nat.one_pos

/-- `MemoryDedup::mark_processed` (mem.rs:176-214).  Contiguous ids advance the
watermark and absorb following gap entries (then the gap set is pruned with
`gaps.retain(|&id| id > cum && id <= cum + self.window_size)`); out-of-order
ids are recorded only when within the gap window. -/
def mark_processed (d : MemoryDedup) (peer msg_id : Nat) : MemoryDedup :=
  if msg_id ≤ d.cumOf peer then d
  else if msg_id = d.cumOf peer + 1 then
    { d with
      cum_processed := insertKV d.cum_processed peer (absorbGaps (d.gapsOf peer) msg_id).2,
      gap_window := insertKV d.gap_window peer
        ((absorbGaps (d.gapsOf peer) msg_id).1.filter
          (fun id => (absorbGaps (d.gapsOf peer) msg_id).2 < id &&
            id ≤ (absorbGaps (d.gapsOf peer) msg_id).2 + d.window_size)) }
  else
    { d with
      gap_window := insertKV d.gap_window peer
        (if msg_id ≤ d.cumOf peer + d.window_size then
          (if msg_id ∈ d.gapsOf peer then d.gapsOf peer else msg_id :: d.gapsOf peer)
        else d.gapsOf peer) }

/-- The absorption loop never moves the watermark backwards. -/
theorem le_absorbGaps (gaps : List Nat) (cum : Nat) : cum ≤ (absorbGaps gaps cum).2 := by
  rw [absorbGaps]
  split
  · exact Nat.le_trans (Nat.le_succ cum) (le_absorbGaps _ _)
  · exact Nat.le_refl _
termination_by gaps.length
decreasing_by
  have hmem : cum + 1 ∈ gaps := by assumption
  exact (List.length_erase_of_mem hmem) ▸
    Nat.sub_lt (List.length_pos_of_mem hmem) Nat.one_pos

/-- Every id in the gap set either survives absorption or is covered by the
advanced watermark. -/
theorem mem_absorbGaps {x : Nat} (gaps : List Nat) (cum : Nat) (hx : x ∈ gaps) :
    x ∈ (absorbGaps gaps cum).1 ∨ x ≤ (absorbGaps gaps cum).2 := by
  rw [absorbGaps]
  split
  · rename_i h
    by_cases hxc : x = cum + 1
    · exact Or.inr (hxc ▸ Nat.le_trans (Nat.le_refl _) (le_absorbGaps _ _))
    · exact mem_absorbGaps _ _ (List.mem_erase_of_ne hxc |>.mpr hx)
  · exact Or.inl hx
termination_by gaps.length
decreasing_by
  have hmem : cum + 1 ∈ gaps := by assumption
  exact (List.length_erase_of_mem hmem) ▸
    Nat.sub_lt (List.length_pos_of_mem hmem) Nat.one_pos

/-- The surviving gap set after absorption is a subset of the original. -/
theorem absorbGaps_subset {x : Nat} (gaps : List Nat) (cum : Nat)
    (hx : x ∈ (absorbGaps gaps cum).1) : x ∈ gaps := by
  rw [absorbGaps] at hx
  split at hx
  · exact List.mem_of_mem_erase (absorbGaps_subset _ _ hx)
  · exact hx
termination_by gaps.length
decreasing_by
  have hmem : cum + 1 ∈ gaps := by assumption
  exact (List.length_erase_of_mem hmem) ▸
    Nat.sub_lt (List.length_pos_of_mem hmem) Nat.one_pos

/-- Invariant of the dedup state: every tracked gap id lies within the gap
window above the watermark's bound.  It holds for the empty initial state and,
as proved below, is preserved by `mark_processed`. -/
def GapInv (d : MemoryDedup) : Prop :=
  ∀ peer id, id ∈ d.gapsOf peer → id ≤ d.cumOf peer + d.window_size

theorem gapInv_empty (w : Nat) : GapInv ⟨[], [], w⟩ := by
  intro peer id h
  simp [gapsOf, lookupD] at h
/-- Branch equation: duplicate ids (at or below the watermark) leave the state
unchanged. -/
theorem mark_processed_of_le {d : MemoryDedup} {peer msg_id : Nat}
    (h : msg_id ≤ d.cumOf peer) : d.mark_processed peer msg_id = d := by
  simp [mark_processed, h]

/-- Branch equation: the contiguous id advances the watermark, absorbing gaps. -/
theorem mark_processed_of_succ {d : MemoryDedup} {peer msg_id : Nat}
    (h1 : ¬ msg_id ≤ d.cumOf peer) (h2 : msg_id = d.cumOf peer + 1) :
    d.mark_processed peer msg_id =
      { d with
        cum_processed := insertKV d.cum_processed peer (absorbGaps (d.gapsOf peer) msg_id).2,
        gap_window := insertKV d.gap_window peer
          ((absorbGaps (d.gapsOf peer) msg_id).1.filter
            (fun id => (absorbGaps (d.gapsOf peer) msg_id).2 < id &&
              id ≤ (absorbGaps (d.gapsOf peer) msg_id).2 + d.window_size)) } := by
  simp only [mark_processed]
  rw [if_neg h1, if_pos h2]

/-- Branch equation: an out-of-order id is recorded in the gap set only when it
is within the window. -/
theorem mark_processed_of_gap {d : MemoryDedup} {peer msg_id : Nat}
    (h1 : ¬ msg_id ≤ d.cumOf peer) (h2 : ¬ msg_id = d.cumOf peer + 1) :
    d.mark_processed peer msg_id =
      { d with
        gap_window := insertKV d.gap_window peer
          (if msg_id ≤ d.cumOf peer + d.window_size then
            (if msg_id ∈ d.gapsOf peer then d.gapsOf peer else msg_id :: d.gapsOf peer)
          else d.gapsOf peer) } := by
  simp only [mark_processed]
  rw [if_neg h1, if_neg h2]

/-- The watermark is monotone under `mark_processed` (any peer, any id). -/
theorem cumOf_mark_processed_le (d : MemoryDedup) (p' m' p : Nat) :
    d.cumOf p ≤ (d.mark_processed p' m').cumOf p := by
  by_cases h1 : m' ≤ d.cumOf p'
  · rw [mark_processed_of_le h1]
  · by_cases h2 : m' = d.cumOf p' + 1
    · rw [mark_processed_of_succ h1 h2]
      by_cases hp : p = p'
      · subst hp
        simp only [cumOf, lookupD_insertKV_self]
        have hm : d.cumOf p ≤ m' := by
          simp only [cumOf] at h2
          omega
        exact Nat.le_trans hm (le_absorbGaps _ _)
      · simp only [cumOf, lookupD_insertKV_ne _ _ _ _ _ hp]
        exact Nat.le_refl _
    · rw [mark_processed_of_gap h1 h2]
      exact Nat.le_refl _

/-- The gap set of a different peer is untouched. -/
theorem gapsOf_mark_processed_ne (d : MemoryDedup) (p' m' p : Nat) (hp : p ≠ p') :
    (d.mark_processed p' m').gapsOf p = d.gapsOf p := by
  by_cases h1 : m' ≤ d.cumOf p'
  · rw [mark_processed_of_le h1]
  · by_cases h2 : m' = d.cumOf p' + 1
    · rw [mark_processed_of_succ h1 h2]
      simp only [gapsOf, lookupD_insertKV_ne _ _ _ _ _ hp]
    · rw [mark_processed_of_gap h1 h2]
      simp only [gapsOf, lookupD_insertKV_ne _ _ _ _ _ hp]

/-- The watermark of a different peer is untouched. -/
theorem cumOf_mark_processed_ne (d : MemoryDedup) (p' m' p : Nat) (hp : p ≠ p') :
    (d.mark_processed p' m').cumOf p = d.cumOf p := by
  by_cases h1 : m' ≤ d.cumOf p'
  · rw [mark_processed_of_le h1]
  · by_cases h2 : m' = d.cumOf p' + 1
    · rw [mark_processed_of_succ h1 h2]
      simp only [cumOf, lookupD_insertKV_ne _ _ _ _ _ hp]
    · rw [mark_processed_of_gap h1 h2]
      rfl

/-- `mark_processed` preserves the gap-window invariant. -/
theorem gapInv_mark_processed {d : MemoryDedup} (hinv : GapInv d) (p' m' : Nat) :
    GapInv (d.mark_processed p' m') := by
  intro peer id hid
  by_cases h1 : m' ≤ d.cumOf p'
  · rw [mark_processed_of_le h1] at hid ⊢
    exact hinv peer id hid
  · by_cases h2 : m' = d.cumOf p' + 1
    · rw [mark_processed_of_succ h1 h2] at hid ⊢
      by_cases hp : peer = p'
      · subst hp
        simp only [gapsOf, cumOf, lookupD_insertKV_self] at hid ⊢
        have hc := (List.mem_filter.mp hid).2
        simp only [decide_eq_true_eq, Bool.and_eq_true] at hc
        exact hc.2
      · simp only [gapsOf, cumOf, lookupD_insertKV_ne _ _ _ _ _ hp] at hid ⊢
        exact hinv peer id hid
    · rw [mark_processed_of_gap h1 h2] at hid ⊢
      by_cases hp : peer = p'
      · subst hp
        simp only [gapsOf, cumOf, lookupD_insertKV_self] at hid ⊢
        split at hid
        · rename_i hwin
          split at hid
          · exact hinv peer id hid
          · rcases List.mem_cons.mp hid with h | h
            · subst h
              simpa [cumOf] using hwin
            · exact hinv peer id h
        · exact hinv peer id hid
      · simp only [gapsOf, cumOf, lookupD_insertKV_ne _ _ _ _ _ hp] at hid ⊢
        exact hinv peer id hid

/-- Marking an id that lies within the gap window at the time of the call makes
it immediately `is_processed`. -/
theorem is_processed_mark_processed_self {d : MemoryDedup} (p m : Nat)
    (hwin : m ≤ d.cumOf p + d.window_size) :
    (d.mark_processed p m).is_processed p m = true := by
  by_cases h1 : m ≤ d.cumOf p
  · rw [mark_processed_of_le h1]
    simp [is_processed, h1]
  · by_cases h2 : m = d.cumOf p + 1
    · rw [mark_processed_of_succ h1 h2]
      simp only [is_processed, cumOf, lookupD_insertKV_self]
      rw [if_pos (le_absorbGaps (d.gapsOf p) m)]
    · rw [mark_processed_of_gap h1 h2]
      simp only [is_processed, cumOf, gapsOf, lookupD_insertKV_self]
      simp only [cumOf] at h1 hwin
      rw [if_neg h1, if_pos hwin]
      by_cases hm : m ∈ d.gapsOf p
      · simp only [gapsOf] at hm
        simp [hm]
      · simp only [gapsOf] at hm
        simp [hm]

/-- Once `is_processed` holds, any further `mark_processed` call (any peer, any
id) keeps it true, provided the gap-window invariant holds. -/
theorem is_processed_mark_processed_mono {d : MemoryDedup} (hinv : GapInv d)
    {p m : Nat} (hp : d.is_processed p m = true) (p' m' : Nat) :
    (d.mark_processed p' m').is_processed p m = true := by
  unfold is_processed at hp
  split at hp
  · rename_i hle
    have hle2 := Nat.le_trans hle (cumOf_mark_processed_le d p' m' p)
    simp [is_processed, hle2]
  · rename_i hgt
    have hmem : m ∈ d.gapsOf p := by simpa using hp
    by_cases hpp : p = p'
    · subst hpp
      by_cases h1 : m' ≤ d.cumOf p
      · rw [mark_processed_of_le h1]
        simp [is_processed, hmem]
      · by_cases h2 : m' = d.cumOf p + 1
        · rw [mark_processed_of_succ h1 h2]
          rcases mem_absorbGaps (d.gapsOf p) m' hmem with hmem2 | hle2
          · by_cases hle3 : m ≤ (absorbGaps (d.gapsOf p) m').2
            · simp only [is_processed, cumOf_mk, lookupD_insertKV_self]
              rw [if_pos hle3]
            · have hgt3 : (absorbGaps (d.gapsOf p) m').2 < m := Nat.lt_of_not_le hle3
              have hupper : m ≤ (absorbGaps (d.gapsOf p) m').2 + d.window_size := by
                have ha : m ≤ d.cumOf p + d.window_size := hinv p m hmem
                have hb : d.cumOf p + 1 ≤ (absorbGaps (d.gapsOf p) m').2 := by
                  rw [← h2]
                  exact le_absorbGaps _ _
                omega
              simp only [is_processed, cumOf_mk, gapsOf_mk, lookupD_insertKV_self]
              rw [if_neg (Nat.not_le_of_lt hgt3)]
              have hfil : m ∈ (absorbGaps (d.gapsOf p) m').1.filter
                  (fun id => (absorbGaps (d.gapsOf p) m').2 < id &&
                    id ≤ (absorbGaps (d.gapsOf p) m').2 + d.window_size) := by
                refine List.mem_filter.mpr ⟨hmem2, ?_⟩
                simp [hgt3, hupper]
              simp [hfil]
          · simp only [is_processed, cumOf_mk, lookupD_insertKV_self]
            rw [if_pos hle2]
        · rw [mark_processed_of_gap h1 h2]
          simp only [is_processed, cumOf, gapsOf, lookupD_insertKV_self]
          split
          · rfl
          · split
            · by_cases hm' : m' ∈ d.gapsOf p
              · simp only [gapsOf] at hm'
                simp [hm', hmem, gapsOf] at *
                simp [hmem]
              · simp only [gapsOf] at hm'
                simp only [if_neg hm']
                have : m ∈ m' :: lookupD d.gap_window p [] := by
                  exact List.mem_cons_of_mem _ hmem
                simp [this]
            · simp [hmem, gapsOf] at *
              simp [hmem]
    · unfold is_processed
      rw [gapsOf_mark_processed_ne _ _ _ _ hpp, cumOf_mark_processed_ne _ _ _ _ hpp]
      split
      · rfl
      · simp [hmem]
end MemoryDedup

/-!
### C1 — dedup: `mark_processed` / `is_processed`

The claim states that every id ever passed to `mark_processed(P, m)` — even one
beyond the gap window — is afterwards reported processed, ids beyond the window
being "treated as already-processed, never as new".  The source does the
opposite for out-of-window ids: `mark_processed` drops them without recording
anything (mem.rs:207-210 only inserts `if msg_id <= cum + self.window_size`),
so a later `is_processed` returns `false` and the id is treated as new.
-/

/-- C1 (counterexample): with the default 65536 window and a fresh peer, marking
msg_id 65537 (one beyond the window) leaves `is_processed` false, contradicting
the claim that such ids are afterwards reported processed. -/
theorem dedup_mark_outside_window_counterexample :
    MemoryDedup.is_processed
      (MemoryDedup.mark_processed ⟨[], [], 65536⟩ 1 65537) 1 65537 = false := by
  decide

/-- Helper: folding any sequence of `mark_processed` calls over a state where
`is_processed p m` already holds (and the gap-window invariant holds) keeps
`is_processed p m` true. -/
theorem dedup_foldl_preserves (p m : Nat) (ops : List (Nat × Nat)) (s : MemoryDedup)
    (hinv : MemoryDedup.GapInv s) (hp : MemoryDedup.is_processed s p m = true) :
    MemoryDedup.is_processed
      (ops.foldl (fun s e => s.mark_processed e.1 e.2) s) p m = true := by
  induction ops generalizing s with
  | nil => exact hp
  | cons op rest ih =>
    exact ih _ (MemoryDedup.gapInv_mark_processed hinv op.1 op.2)
      (MemoryDedup.is_processed_mark_processed_mono hinv hp op.1 op.2)

/-- C1 (amended): if `m` lies within the gap window at the time of the
`mark_processed(P, m)` call, then `is_processed(P, m)` returns true immediately
and after any further sequence of `mark_processed` calls, for any state
satisfying the gap-window invariant. -/
theorem dedup_mark_within_window_is_processed_forever
    (d : MemoryDedup) (p m : Nat) (ops : List (Nat × Nat))
    (hinv : MemoryDedup.GapInv d) (hwin : m ≤ d.cumOf p + d.window_size) :
    MemoryDedup.is_processed
      (ops.foldl (fun s e => s.mark_processed e.1 e.2) (d.mark_processed p m))
      p m = true :=
  dedup_foldl_preserves p m ops (d.mark_processed p m)
    (MemoryDedup.gapInv_mark_processed hinv p m)
    (MemoryDedup.is_processed_mark_processed_self p m hwin)

/-- C1 witness: concrete application of the amended theorem. -/
theorem dedup_mark_within_window_is_processed_forever_witness :
    MemoryDedup.is_processed
      (List.foldl (fun s e => MemoryDedup.mark_processed s e.1 e.2)
        (MemoryDedup.mark_processed ⟨[], [], 65536⟩ 1 1) [(1, 2), (5, 9)]) 1 1 = true :=
  dedup_mark_within_window_is_processed_forever ⟨[], [], 65536⟩ 1 1 [(1, 2), (5, 9)]
    (MemoryDedup.gapInv_empty 65536) (by decide)

/-! ## Reliability layer: receiving a DATA frame

Embedding of `ReliabilityManager::process_data_frame` from
`src/services/mesh/session/src/reliability.rs` (lines 238-286), together with
the per-peer receive state and `init_recv_state` (lines 151-173).  `Instant`
timestamps are modelled as `Nat` supplied by the caller; the storage backend is
the in-memory dedup above. -/

structure RecvState where
  cum_processed : Nat
  credits_max : Nat
  credits_avail : Int
  ack_pending : Bool
  last_ack_sent : Nat
  msgs_since_ack : Nat
deriving Repr, DecidableEq

/-- The parts of `ReliabilityManager` that `process_data_frame` touches:
`storage.dedup` and the per-peer `recv_states` map. -/
structure ReliabilityState where
  dedup : MemoryDedup
  recv_states : List (Nat × RecvState)
deriving Repr, DecidableEq

/-- `ReliabilityManager::init_recv_state`: create the receive state from
storage when the peer has none yet. -/
def init_recv_state (default_recv_window now : Nat) (s : ReliabilityState)
    (peer : Nat) : ReliabilityState :=
  match lookupOpt s.recv_states peer with
  | some _ => s
  | none =>
    { s with
      recv_states := insertKV s.recv_states peer
        ⟨s.dedup.cumOf peer, default_recv_window, (default_recv_window : Int),
         false, now, 0⟩ }

/-- The body of `ReliabilityManager::process_data_frame` after
`init_recv_state`: a duplicate (per the dedup backend) is dropped but still
marks an ACK pending; a fresh id is marked processed, consumes credits, marks
an ACK pending and is reported as newly processed (payload handed upward). -/
def processAfterInit (s : ReliabilityState) (peer msg_id payload_len : Nat) :
    Bool × ReliabilityState :=
  if s.dedup.is_processed peer msg_id then
    (false,
      { s with
        recv_states :=
          match lookupOpt s.recv_states peer with
          | some r => insertKV s.recv_states peer { r with ack_pending := true }
          | none => s.recv_states })
  else
    (true,
      { dedup := s.dedup.mark_processed peer msg_id,
        recv_states :=
          match lookupOpt s.recv_states peer with
          | some r => insertKV s.recv_states peer
              { r with
                cum_processed := (s.dedup.mark_processed peer msg_id).cumOf peer,
                credits_avail := r.credits_avail - (payload_len : Int),
                ack_pending := true,
                msgs_since_ack := r.msgs_since_ack + 1 }
          | none => s.recv_states })

/-- `ReliabilityManager::process_data_frame` (reliability.rs:238-286). -/
def process_data_frame (default_recv_window now : Nat) (s : ReliabilityState)
    (peer msg_id payload_len : Nat) : Bool × ReliabilityState :=
  processAfterInit (init_recv_state default_recv_window now s peer) peer msg_id payload_len

theorem init_recv_state_dedup (w now : Nat) (s : ReliabilityState) (peer : Nat) :
    (init_recv_state w now s peer).dedup = s.dedup := by
  unfold init_recv_state
  split <;> rfl

theorem init_recv_state_lookup (w now : Nat) (s : ReliabilityState) (peer : Nat) :
    ∃ r, lookupOpt (init_recv_state w now s peer).recv_states peer = some r := by
  unfold init_recv_state
  split
  · rename_i r heq
    exact ⟨r, heq⟩
  · exact ⟨_, lookupOpt_insertKV_self _ _ _⟩

/-- After `processAfterInit` the peer's receive state (when present before the
call) has `ack_pending = true` in both branches. -/
theorem processAfterInit_ack_pending (s : ReliabilityState) (peer msg_id payload_len : Nat)
    (hpresent : ∃ r0, lookupOpt s.recv_states peer = some r0) :
    ∃ r, lookupOpt (processAfterInit s peer msg_id payload_len).2.recv_states peer = some r ∧
      r.ack_pending = true := by
  obtain ⟨r0, h0⟩ := hpresent
  unfold processAfterInit
  split
  · refine ⟨{ r0 with ack_pending := true }, ?_, rfl⟩
    simp only [h0]
    exact lookupOpt_insertKV_self _ _ _
  · refine ⟨{ r0 with
        cum_processed := (s.dedup.mark_processed peer msg_id).cumOf peer,
        credits_avail := r0.credits_avail - (payload_len : Int),
        ack_pending := true,
        msgs_since_ack := r0.msgs_since_ack + 1 }, ?_, rfl⟩
    simp only [h0]
    exact lookupOpt_insertKV_self _ _ _

/-- `processAfterInit` does not change the dedup state on the duplicate path
and marks on the fresh path. -/
theorem processAfterInit_dedup_of_processed (s : ReliabilityState) (peer msg_id payload_len : Nat)
    (h : s.dedup.is_processed peer msg_id = true) :
    (processAfterInit s peer msg_id payload_len).1 = false ∧
    (processAfterInit s peer msg_id payload_len).2.dedup = s.dedup := by
  unfold processAfterInit
  rw [if_pos h]
  constructor
  · rfl
  · split <;> rfl

theorem processAfterInit_of_fresh (s : ReliabilityState) (peer msg_id payload_len : Nat)
    (h : s.dedup.is_processed peer msg_id = false) :
    (processAfterInit s peer msg_id payload_len).1 = true ∧
    (processAfterInit s peer msg_id payload_len).2.dedup =
      s.dedup.mark_processed peer msg_id := by
  unfold processAfterInit
  rw [if_neg (by simp [h])]
  constructor
  · rfl
  · split <;> rfl

/-!
### C9 — reliability: duplicate `(peer, msg_id)` handling

The claim states that a second receipt of the same `(P, m)` is never handed
upward again and still triggers an ACK.  Because the dedup backend drops
out-of-window ids (see C1), a first receipt of such an id records nothing, and
the second receipt is reported "newly processed" again: the payload is handed
upward twice.
-/

/-- C9 (counterexample): fresh state, default window 65536; the Data frame
`(peer 1, msg_id 65537, len 5)` is reported newly processed on the first *and*
on the second receipt, contradicting "exactly one upward delivery". -/
theorem process_data_frame_duplicate_counterexample :
    (process_data_frame 65536 0 ⟨⟨[], [], 65536⟩, []⟩ 1 65537 5).1 = true ∧
    (process_data_frame 65536 0
      ((process_data_frame 65536 0 ⟨⟨[], [], 65536⟩, []⟩ 1 65537 5).2) 1 65537 5).1 = true := by
  decide

/-- C9 (amended): for an id within the gap window at first receipt, the first
receipt (of a not-yet-processed id) is reported newly processed, the second
receipt is not (exactly one upward delivery), and the second receipt still
marks an ACK pending. -/
theorem process_data_frame_exactly_once (w now now2 : Nat) (s : ReliabilityState)
    (p m len len2 : Nat)
    (hwin : m ≤ s.dedup.cumOf p + s.dedup.window_size) :
    (s.dedup.is_processed p m = false → (process_data_frame w now s p m len).1 = true) ∧
    (process_data_frame w now2 (process_data_frame w now s p m len).2 p m len2).1 = false ∧
    ∃ r, lookupOpt
        (process_data_frame w now2 (process_data_frame w now s p m len).2 p m len2).2.recv_states
        p = some r ∧ r.ack_pending = true := by
  have hd1 : (init_recv_state w now s p).dedup = s.dedup := init_recv_state_dedup w now s p
  by_cases hproc : s.dedup.is_processed p m = true
  · -- already processed before the first call: both calls take the duplicate path
    have h1 := processAfterInit_dedup_of_processed (init_recv_state w now s p) p m len
      (by rw [hd1]; exact hproc)
    have hdedup1 : (process_data_frame w now s p m len).2.dedup = s.dedup := by
      unfold process_data_frame
      rw [h1.2, hd1]
    have hd2 : (init_recv_state w now2 (process_data_frame w now s p m len).2 p).dedup
        = s.dedup := by
      rw [init_recv_state_dedup, hdedup1]
    have h2 := processAfterInit_dedup_of_processed
      (init_recv_state w now2 (process_data_frame w now s p m len).2 p) p m len2
      (by rw [hd2]; exact hproc)
    refine ⟨fun hfresh => absurd hproc (by simp [hfresh]), ?_, ?_⟩
    · unfold process_data_frame
      exact h2.1
    · unfold process_data_frame
      exact processAfterInit_ack_pending _ p m len2
        (init_recv_state_lookup _ _ _ _)
  · -- fresh id: first call marks it; second call sees it processed
    have hfresh : s.dedup.is_processed p m = false := by
      cases h : s.dedup.is_processed p m
      · rfl
      · exact absurd h hproc
    have h1 := processAfterInit_of_fresh (init_recv_state w now s p) p m len
      (by rw [hd1]; exact hfresh)
    have hdedup1 : (process_data_frame w now s p m len).2.dedup =
        s.dedup.mark_processed p m := by
      unfold process_data_frame
      rw [h1.2, hd1]
    have hmarked : (s.dedup.mark_processed p m).is_processed p m = true :=
      MemoryDedup.is_processed_mark_processed_self p m hwin
    have hd2 : (init_recv_state w now2 (process_data_frame w now s p m len).2 p).dedup
        = s.dedup.mark_processed p m := by
      rw [init_recv_state_dedup, hdedup1]
    have h2 := processAfterInit_dedup_of_processed
      (init_recv_state w now2 (process_data_frame w now s p m len).2 p) p m len2
      (by rw [hd2]; exact hmarked)
    refine ⟨fun _ => ?_, ?_, ?_⟩
    · unfold process_data_frame
      exact h1.1
    · unfold process_data_frame
      exact h2.1
    · unfold process_data_frame
      exact processAfterInit_ack_pending _ p m len2
        (init_recv_state_lookup _ _ _ _)

/-- C9 witness: concrete application of the amended theorem. -/
theorem process_data_frame_exactly_once_witness :
    ((⟨⟨[], [], 65536⟩, []⟩ : ReliabilityState).dedup.is_processed 1 1 = false →
      (process_data_frame 65536 0 ⟨⟨[], [], 65536⟩, []⟩ 1 1 5).1 = true) ∧
    (process_data_frame 65536 7
      ((process_data_frame 65536 0 ⟨⟨[], [], 65536⟩, []⟩ 1 1 5).2) 1 1 5).1 = false ∧
    ∃ r, lookupOpt
        (process_data_frame 65536 7
          ((process_data_frame 65536 0 ⟨⟨[], [], 65536⟩, []⟩ 1 1 5).2) 1 1 5).2.recv_states
        1 = some r ∧ r.ack_pending = true :=
  process_data_frame_exactly_once 65536 0 7 ⟨⟨[], [], 65536⟩, []⟩ 1 1 5 5 (by decide)

/-! ## Wire codec

Embedding of the frame codec from `src/services/mesh/wire/src/header.rs` and
`frame.rs`.  Byte buffers are `List Nat` (each entry one byte); the big-endian
writers `put_u8/u16/u32/u64` are `beBytes w n` (which, like a Rust `as` cast,
keeps only the low `w` bytes), and the readers `get_u8/…/u64` read
`beVal (buf.take w)` and continue with `buf.drop w`. -/

namespace Wire

/-- `DEFAULT_MAX_FRAME_SIZE` (frame.rs:11). -/
def DEFAULT_MAX_FRAME_SIZE : Nat := 16 * 1024 * 1024

/-- `MAX_META_SIZE` (frame.rs:16). -/
def MAX_META_SIZE : Nat := 64 * 1024

/-- Big-endian encoding of the low `w` bytes of `n`. -/
def beBytes : Nat → Nat → List Nat
  | 0, _ => []
  | w + 1, n => beBytes w (n / 256) ++ [n % 256]

/-- Big-endian value of a byte list. -/
def beVal (l : List Nat) : Nat := l.foldl (fun a b => a * 256 + b) 0

theorem length_beBytes (w n : Nat) : (beBytes w n).length = w := by
  induction w generalizing n with
  | zero => rfl
  | succ w ih => simp [beBytes, ih]

theorem beVal_append_singleton (l : List Nat) (b : Nat) :
    beVal (l ++ [b]) = beVal l * 256 + b := by
  simp [beVal, List.foldl_append]

theorem beVal_beBytes (w n : Nat) (h : n < 256 ^ w) : beVal (beBytes w n) = n := by
  induction w generalizing n with
  | zero =>
    simp [beBytes, beVal]
    omega
  | succ w ih =>
    have hdiv : n / 256 < 256 ^ w := by
      rw [Nat.div_lt_iff_lt_mul (by omega)]
      calc n < 256 ^ (w + 1) := h
        _ = 256 ^ w * 256 := by rw [Nat.pow_succ]
    rw [beBytes, beVal_append_singleton, ih _ hdiv]
    omega

theorem take_length_append (l r : List Nat) : (l ++ r).take l.length = l := by
  induction l with
  | nil => rfl
  | cons a l ih => simp [ih]

theorem drop_length_append (l r : List Nat) : (l ++ r).drop l.length = r := by
  induction l with
  | nil => rfl
  | cons a l ih => simp [ih]

theorem take_beBytes_append (w n : Nat) (r : List Nat) :
    (beBytes w n ++ r).take w = beBytes w n := by
  have h := take_length_append (beBytes w n) r
  rwa [length_beBytes] at h

theorem drop_beBytes_append (w n : Nat) (r : List Nat) :
    (beBytes w n ++ r).drop w = r := by
  have h := drop_length_append (beBytes w n) r
  rwa [length_beBytes] at h

/-- `FrameType` (header.rs:19-42). -/
inductive FrameType
  | Data | Ack | Credit | Ping | Pong | Hello | Resume | Drain | Bye
  | TopologyUpdate | TopologyRequest
deriving Repr, DecidableEq

/-- `FrameType as u8`. -/
def FrameType.toU8 : FrameType → Nat
  | .Data => 0x00
  | .Ack => 0x01
  | .Credit => 0x02
  | .Ping => 0x03
  | .Pong => 0x04
  | .Hello => 0x05
  | .Resume => 0x06
  | .Drain => 0x07
  | .Bye => 0x08
  | .TopologyUpdate => 0x09
  | .TopologyRequest => 0x0A

/-- `TryFrom<u8> for FrameType` (header.rs:44-63); `none` models the
`WireError::Type` rejection. -/
def FrameType.fromU8 (n : Nat) : Option FrameType :=
  if n = 0x00 then some .Data
  else if n = 0x01 then some .Ack
  else if n = 0x02 then some .Credit
  else if n = 0x03 then some .Ping
  else if n = 0x04 then some .Pong
  else if n = 0x05 then some .Hello
  else if n = 0x06 then some .Resume
  else if n = 0x07 then some .Drain
  else if n = 0x08 then some .Bye
  else if n = 0x09 then some .TopologyUpdate
  else if n = 0x0A then some .TopologyRequest
  else none

theorem FrameType.fromU8_toU8 (t : FrameType) : FrameType.fromU8 t.toU8 = some t := by
  cases t <;> rfl

theorem FrameType.toU8_lt (t : FrameType) : t.toU8 < 256 ^ 1 := by
  cases t <;> decide

/-- `StatusCode` (header.rs:87-98). -/
inductive StatusCode
  | Ok | Retryable | Fatal | Busy | Unsupported
deriving Repr, DecidableEq

def StatusCode.toU8 : StatusCode → Nat
  | .Ok => 0
  | .Retryable => 1
  | .Fatal => 2
  | .Busy => 3
  | .Unsupported => 4

/-- `TryFrom<u8> for StatusCode` (header.rs:100-113). -/
def StatusCode.fromU8 (n : Nat) : Option StatusCode :=
  if n = 0 then some .Ok
  else if n = 1 then some .Retryable
  else if n = 2 then some .Fatal
  else if n = 3 then some .Busy
  else if n = 4 then some .Unsupported
  else none

theorem StatusCode.fromU8_toU8_code (c : StatusCode) : StatusCode.fromU8 c.toU8 = some c := by
  cases c <;> rfl

theorem StatusCode.toU8_lt_code (c : StatusCode) : c.toU8 < 256 ^ 1 := by
  cases c <;> decide

/-- The `bitflags! Flags` type (header.rs:65-82).  A `Flags` value built through
the safe bitflags API carries only the six defined bits, which the structure of
six booleans captures exactly. -/
structure Flags where
  chunked : Bool
  chunk_end : Bool
  e2e_enc : Bool
  compressed : Bool
  route_lock : Bool
  hdr_checksum : Bool
deriving Repr, DecidableEq

/-- `Flags::bits()`. -/
def Flags.bits (f : Flags) : Nat :=
  (cond f.chunked 1 0) + (cond f.chunk_end 2 0) + (cond f.e2e_enc 4 0) +
  (cond f.compressed 8 0) + (cond f.route_lock 16 0) + (cond f.hdr_checksum 32 0)

/-- `Flags::from_bits(v)`: `some` iff no unknown bit is set (the defined mask is
the contiguous 0x3F, so this is `v < 64`). -/
def Flags.fromBits (n : Nat) : Option Flags :=
  if n < 64 then
    some ⟨n.testBit 0, n.testBit 1, n.testBit 2, n.testBit 3, n.testBit 4, n.testBit 5⟩
  else none

theorem Flags.fromBits_bits (f : Flags) : Flags.fromBits f.bits = some f := by
  obtain ⟨a, b, c, d, e, g⟩ := f
  cases a <;> cases b <;> cases c <;> cases d <;> cases e <;> cases g <;> decide

theorem Flags.bits_lt (f : Flags) : f.bits < 256 ^ 2 := by
  obtain ⟨a, b, c, d, e, g⟩ := f
  cases a <;> cases b <;> cases c <;> cases d <;> cases e <;> cases g <;> decide

/-- `WireError` (error.rs).  `Type`/`Code` are spelled `Typ`/`Code` because
`Type` is a Lean keyword. -/
inductive WireError
  | Incomplete
  | Version (v : Nat)
  | Ttl
  | Size (n : Nat)
  | Crypto
  | Meta
  | HdrCsum
  | Reserved
  | Typ (t : Nat)
  | Code (c : Nat)
  | Malformed
deriving Repr, DecidableEq

/-- `FastHeader` (header.rs:160-185). -/
structure FastHeader where
  ver : Nat
  typ : FrameType
  flags : Flags
  code : StatusCode
  ttl : Nat
  reserved0 : Nat
  msg_id : Nat
  corr_id : Nat
  src_node : Nat
  dst_node : Nat
  route : Nat
  hdr_hint_len : Nat
deriving Repr, DecidableEq

/-- `FastHeader::encode` (header.rs:217-230): 48 bytes, big-endian, in field
order. -/
def FastHeader.encode (h : FastHeader) : List Nat :=
  beBytes 1 h.ver ++ beBytes 1 h.typ.toU8 ++ beBytes 2 h.flags.bits ++
  beBytes 1 h.code.toU8 ++ beBytes 1 h.ttl ++ beBytes 2 h.reserved0 ++
  beBytes 8 h.msg_id ++ beBytes 8 h.corr_id ++ beBytes 8 h.src_node ++
  beBytes 8 h.dst_node ++ beBytes 4 h.route ++ beBytes 4 h.hdr_hint_len

/-- `FastHeader::decode` (header.rs:233-278): read the 48 header bytes with the
same validation order as the source (length, version, type, flags, code, then
reserved and ttl checks after both are read). -/
def FastHeader.decode (buf : List Nat) : Except WireError (FastHeader × List Nat) :=
  if buf.length < 48 then .error .Incomplete
  else if beVal (buf.take 1) ≠ 1 then .error (.Version (beVal (buf.take 1)))
  else
    match FrameType.fromU8 (beVal ((buf.drop 1).take 1)) with
    | none => .error (.Typ (beVal ((buf.drop 1).take 1)))
    | some typ =>
      match Flags.fromBits (beVal ((buf.drop 2).take 2)) with
      | none => .error .Reserved
      | some flags =>
        match StatusCode.fromU8 (beVal ((buf.drop 4).take 1)) with
        | none => .error (.Code (beVal ((buf.drop 4).take 1)))
        | some code =>
          if beVal ((buf.drop 6).take 2) ≠ 0 then .error .Reserved
          else if beVal ((buf.drop 5).take 1) = 0 then .error .Ttl
          else
            .ok (⟨beVal (buf.take 1), typ, flags, code,
                  beVal ((buf.drop 5).take 1), beVal ((buf.drop 6).take 2),
                  beVal ((buf.drop 8).take 8), beVal ((buf.drop 16).take 8),
                  beVal ((buf.drop 24).take 8), beVal ((buf.drop 32).take 8),
                  beVal ((buf.drop 40).take 4), beVal ((buf.drop 44).take 4)⟩,
                 buf.drop 48)

instance {ε α : Type} [DecidableEq ε] [DecidableEq α] : DecidableEq (Except ε α) := fun a b =>
  match a, b with
  | .ok x, .ok y =>
    if h : x = y then isTrue (by rw [h]) else isFalse (fun hh => h (Except.ok.inj hh))
  | .error x, .error y =>
    if h : x = y then isTrue (by rw [h]) else isFalse (fun hh => h (Except.error.inj hh))
  | .ok _, .error _ => isFalse (fun hh => nomatch hh)
  | .error _, .ok _ => isFalse (fun hh => nomatch hh)

theorem drop_add (m n : Nat) (l : List Nat) : l.drop (m + n) = (l.drop m).drop n := by
  induction m generalizing l with
  | zero => simp
  | succ m ih =>
    cases l with
    | nil => simp
    | cons a l =>
      have hidx : m + 1 + n = (m + n) + 1 := by omega
      rw [hidx, List.drop_succ_cons, List.drop_succ_cons, ih]

/-- Fast-header round trip: decoding the 48 encoded bytes (followed by any
remainder) restores the header and leaves the remainder, for any header whose
fields satisfy the wire validity conditions and fit their integer widths. -/
theorem FastHeader.decode_encode (hd : FastHeader) (rest : List Nat)
    (hver : hd.ver = 1) (httl0 : hd.ttl ≠ 0) (httl : hd.ttl < 256 ^ 1)
    (hres : hd.reserved0 = 0)
    (hmsg : hd.msg_id < 256 ^ 8) (hcorr : hd.corr_id < 256 ^ 8)
    (hsrc : hd.src_node < 256 ^ 8) (hdst : hd.dst_node < 256 ^ 8)
    (hroute : hd.route < 256 ^ 4) (hhint : hd.hdr_hint_len < 256 ^ 4) :
    FastHeader.decode (hd.encode ++ rest) = .ok (hd, rest) := by
  have hb1 : hd.ver < 256 ^ 1 := by rw [hver]; decide
  have hb2 := FrameType.toU8_lt hd.typ
  have hb3 := Flags.bits_lt hd.flags
  have hb4 := StatusCode.toU8_lt_code hd.code
  have hb5 := httl
  have hb6 : hd.reserved0 < 256 ^ 2 := by rw [hres]; decide
  have hb7 := hmsg
  have hb8 := hcorr
  have hb9 := hsrc
  have hb10 := hdst
  have hb11 := hroute
  have hb12 := hhint
  have hd0 : hd.encode ++ rest = beBytes 1 hd.ver ++ (beBytes 1 hd.typ.toU8 ++ (beBytes 2 hd.flags.bits ++ (beBytes 1 hd.code.toU8 ++ (beBytes 1 hd.ttl ++ (beBytes 2 hd.reserved0 ++ (beBytes 8 hd.msg_id ++ (beBytes 8 hd.corr_id ++ (beBytes 8 hd.src_node ++ (beBytes 8 hd.dst_node ++ (beBytes 4 hd.route ++ (beBytes 4 hd.hdr_hint_len ++ (rest)))))))))))) := by
    simp [FastHeader.encode, List.append_assoc]
  have hdrop1 : (hd.encode ++ rest).drop 1 = beBytes 1 hd.typ.toU8 ++ (beBytes 2 hd.flags.bits ++ (beBytes 1 hd.code.toU8 ++ (beBytes 1 hd.ttl ++ (beBytes 2 hd.reserved0 ++ (beBytes 8 hd.msg_id ++ (beBytes 8 hd.corr_id ++ (beBytes 8 hd.src_node ++ (beBytes 8 hd.dst_node ++ (beBytes 4 hd.route ++ (beBytes 4 hd.hdr_hint_len ++ (rest))))))))))) := by
    rw [hd0]
    exact drop_beBytes_append 1 hd.ver _
  have hdrop2 : (hd.encode ++ rest).drop 2 = beBytes 2 hd.flags.bits ++ (beBytes 1 hd.code.toU8 ++ (beBytes 1 hd.ttl ++ (beBytes 2 hd.reserved0 ++ (beBytes 8 hd.msg_id ++ (beBytes 8 hd.corr_id ++ (beBytes 8 hd.src_node ++ (beBytes 8 hd.dst_node ++ (beBytes 4 hd.route ++ (beBytes 4 hd.hdr_hint_len ++ (rest)))))))))) := by
    have hstep : (hd.encode ++ rest).drop 2 = ((hd.encode ++ rest).drop 1).drop 1 :=
      drop_add 1 1 (hd.encode ++ rest)
    rw [hstep, hdrop1]
    exact drop_beBytes_append 1 hd.typ.toU8 _
  have hdrop4 : (hd.encode ++ rest).drop 4 = beBytes 1 hd.code.toU8 ++ (beBytes 1 hd.ttl ++ (beBytes 2 hd.reserved0 ++ (beBytes 8 hd.msg_id ++ (beBytes 8 hd.corr_id ++ (beBytes 8 hd.src_node ++ (beBytes 8 hd.dst_node ++ (beBytes 4 hd.route ++ (beBytes 4 hd.hdr_hint_len ++ (rest))))))))) := by
    have hstep : (hd.encode ++ rest).drop 4 = ((hd.encode ++ rest).drop 2).drop 2 :=
      drop_add 2 2 (hd.encode ++ rest)
    rw [hstep, hdrop2]
    exact drop_beBytes_append 2 hd.flags.bits _
  have hdrop5 : (hd.encode ++ rest).drop 5 = beBytes 1 hd.ttl ++ (beBytes 2 hd.reserved0 ++ (beBytes 8 hd.msg_id ++ (beBytes 8 hd.corr_id ++ (beBytes 8 hd.src_node ++ (beBytes 8 hd.dst_node ++ (beBytes 4 hd.route ++ (beBytes 4 hd.hdr_hint_len ++ (rest)))))))) := by
    have hstep : (hd.encode ++ rest).drop 5 = ((hd.encode ++ rest).drop 4).drop 1 :=
      drop_add 4 1 (hd.encode ++ rest)
    rw [hstep, hdrop4]
    exact drop_beBytes_append 1 hd.code.toU8 _
  have hdrop6 : (hd.encode ++ rest).drop 6 = beBytes 2 hd.reserved0 ++ (beBytes 8 hd.msg_id ++ (beBytes 8 hd.corr_id ++ (beBytes 8 hd.src_node ++ (beBytes 8 hd.dst_node ++ (beBytes 4 hd.route ++ (beBytes 4 hd.hdr_hint_len ++ (rest))))))) := by
    have hstep : (hd.encode ++ rest).drop 6 = ((hd.encode ++ rest).drop 5).drop 1 :=
      drop_add 5 1 (hd.encode ++ rest)
    rw [hstep, hdrop5]
    exact drop_beBytes_append 1 hd.ttl _
  have hdrop8 : (hd.encode ++ rest).drop 8 = beBytes 8 hd.msg_id ++ (beBytes 8 hd.corr_id ++ (beBytes 8 hd.src_node ++ (beBytes 8 hd.dst_node ++ (beBytes 4 hd.route ++ (beBytes 4 hd.hdr_hint_len ++ (rest)))))) := by
    have hstep : (hd.encode ++ rest).drop 8 = ((hd.encode ++ rest).drop 6).drop 2 :=
      drop_add 6 2 (hd.encode ++ rest)
    rw [hstep, hdrop6]
    exact drop_beBytes_append 2 hd.reserved0 _
  have hdrop16 : (hd.encode ++ rest).drop 16 = beBytes 8 hd.corr_id ++ (beBytes 8 hd.src_node ++ (beBytes 8 hd.dst_node ++ (beBytes 4 hd.route ++ (beBytes 4 hd.hdr_hint_len ++ (rest))))) := by
    have hstep : (hd.encode ++ rest).drop 16 = ((hd.encode ++ rest).drop 8).drop 8 :=
      drop_add 8 8 (hd.encode ++ rest)
    rw [hstep, hdrop8]
    exact drop_beBytes_append 8 hd.msg_id _
  have hdrop24 : (hd.encode ++ rest).drop 24 = beBytes 8 hd.src_node ++ (beBytes 8 hd.dst_node ++ (beBytes 4 hd.route ++ (beBytes 4 hd.hdr_hint_len ++ (rest)))) := by
    have hstep : (hd.encode ++ rest).drop 24 = ((hd.encode ++ rest).drop 16).drop 8 :=
      drop_add 16 8 (hd.encode ++ rest)
    rw [hstep, hdrop16]
    exact drop_beBytes_append 8 hd.corr_id _
  have hdrop32 : (hd.encode ++ rest).drop 32 = beBytes 8 hd.dst_node ++ (beBytes 4 hd.route ++ (beBytes 4 hd.hdr_hint_len ++ (rest))) := by
    have hstep : (hd.encode ++ rest).drop 32 = ((hd.encode ++ rest).drop 24).drop 8 :=
      drop_add 24 8 (hd.encode ++ rest)
    rw [hstep, hdrop24]
    exact drop_beBytes_append 8 hd.src_node _
  have hdrop40 : (hd.encode ++ rest).drop 40 = beBytes 4 hd.route ++ (beBytes 4 hd.hdr_hint_len ++ (rest)) := by
    have hstep : (hd.encode ++ rest).drop 40 = ((hd.encode ++ rest).drop 32).drop 8 :=
      drop_add 32 8 (hd.encode ++ rest)
    rw [hstep, hdrop32]
    exact drop_beBytes_append 8 hd.dst_node _
  have hdrop44 : (hd.encode ++ rest).drop 44 = beBytes 4 hd.hdr_hint_len ++ (rest) := by
    have hstep : (hd.encode ++ rest).drop 44 = ((hd.encode ++ rest).drop 40).drop 4 :=
      drop_add 40 4 (hd.encode ++ rest)
    rw [hstep, hdrop40]
    exact drop_beBytes_append 4 hd.route _
  have hdrop48 : (hd.encode ++ rest).drop 48 = rest := by
    have hstep : (hd.encode ++ rest).drop 48 = ((hd.encode ++ rest).drop 44).drop 4 :=
      drop_add 44 4 (hd.encode ++ rest)
    rw [hstep, hdrop44]
    exact drop_beBytes_append 4 hd.hdr_hint_len _
  have hval1 : beVal ((hd.encode ++ rest).take 1) = hd.ver := by
    rw [hd0, take_beBytes_append]
    exact beVal_beBytes 1 hd.ver hb1
  have hval2 : beVal (((hd.encode ++ rest).drop 1).take 1) = hd.typ.toU8 := by
    rw [hdrop1, take_beBytes_append]
    exact beVal_beBytes 1 hd.typ.toU8 hb2
  have hval3 : beVal (((hd.encode ++ rest).drop 2).take 2) = hd.flags.bits := by
    rw [hdrop2, take_beBytes_append]
    exact beVal_beBytes 2 hd.flags.bits hb3
  have hval4 : beVal (((hd.encode ++ rest).drop 4).take 1) = hd.code.toU8 := by
    rw [hdrop4, take_beBytes_append]
    exact beVal_beBytes 1 hd.code.toU8 hb4
  have hval5 : beVal (((hd.encode ++ rest).drop 5).take 1) = hd.ttl := by
    rw [hdrop5, take_beBytes_append]
    exact beVal_beBytes 1 hd.ttl hb5
  have hval6 : beVal (((hd.encode ++ rest).drop 6).take 2) = hd.reserved0 := by
    rw [hdrop6, take_beBytes_append]
    exact beVal_beBytes 2 hd.reserved0 hb6
  have hval7 : beVal (((hd.encode ++ rest).drop 8).take 8) = hd.msg_id := by
    rw [hdrop8, take_beBytes_append]
    exact beVal_beBytes 8 hd.msg_id hb7
  have hval8 : beVal (((hd.encode ++ rest).drop 16).take 8) = hd.corr_id := by
    rw [hdrop16, take_beBytes_append]
    exact beVal_beBytes 8 hd.corr_id hb8
  have hval9 : beVal (((hd.encode ++ rest).drop 24).take 8) = hd.src_node := by
    rw [hdrop24, take_beBytes_append]
    exact beVal_beBytes 8 hd.src_node hb9
  have hval10 : beVal (((hd.encode ++ rest).drop 32).take 8) = hd.dst_node := by
    rw [hdrop32, take_beBytes_append]
    exact beVal_beBytes 8 hd.dst_node hb10
  have hval11 : beVal (((hd.encode ++ rest).drop 40).take 4) = hd.route := by
    rw [hdrop40, take_beBytes_append]
    exact beVal_beBytes 4 hd.route hb11
  have hval12 : beVal (((hd.encode ++ rest).drop 44).take 4) = hd.hdr_hint_len := by
    rw [hdrop44, take_beBytes_append]
    exact beVal_beBytes 4 hd.hdr_hint_len hb12
  have hlen : (hd.encode ++ rest).length = 48 + rest.length := by
    rw [hd0]
    simp [List.length_append, length_beBytes]
    omega
  have h48 : ¬ (hd.encode ++ rest).length < 48 := by
    rw [hlen]
    omega
  unfold FastHeader.decode
  rw [if_neg h48]
  simp only [hval1, hval2, hval3, hval4, hval5, hval6, hval7, hval8, hval9, hval10,
    hval11, hval12, hdrop48, FrameType.fromU8_toU8, Flags.fromBits_bits,
    StatusCode.fromU8_toU8_code, hver, hres]
  simp [httl0]
  rw [← hver, ← hres]

/-- `Frame` (frame.rs:47-56). -/
structure Frame where
  fast : FastHeader
  hint : Option (List Nat)
  meta_raw : List Nat
  payload_or_cipher : List Nat
deriving Repr, DecidableEq

/-- `Frame::encoded_size` (frame.rs:76-89). -/
def Frame.encodedSize (f : Frame) : Nat :=
  4 + 48 + (match f.hint with | some h => h.length | none => 0) +
  4 + f.meta_raw.length + f.payload_or_cipher.length

/-- The byte sequence produced by a successful `Frame::encode` (frame.rs:98-119):
`frame_len` prefix, fast header, optional hint, `meta_len` + metadata, payload. -/
def Frame.encodeBytes (f : Frame) : List Nat :=
  beBytes 4 (f.encodedSize - 4) ++
  (f.fast.encode ++
  ((match f.hint with | some h => h | none => []) ++
  (beBytes 4 f.meta_raw.length ++
  (f.meta_raw ++ f.payload_or_cipher))))

/-- `Frame::encode` (frame.rs:92-120): size-check, then the contiguous buffer. -/
def Frame.encode (f : Frame) (max_frame_size : Nat) : Except WireError (List Nat) :=
  if f.encodedSize > max_frame_size then .error (.Size f.encodedSize)
  else .ok f.encodeBytes

/-- The metadata/payload part of `FrameDecoder::decode` (frame.rs:174-194),
after the hint has been handled: read `meta_len`, check the metadata size, and
split off metadata and payload. -/
def decodeTail (fast : FastHeader) (hint : Option (List Nat))
    (fb2 remaining : List Nat) : Except WireError (Option Frame) × List Nat :=
  if fb2.length < 4 then (.error .Malformed, remaining)
  else if beVal (fb2.take 4) > MAX_META_SIZE ∨ (fb2.drop 4).length < beVal (fb2.take 4) then
    (.error .Meta, remaining)
  else
    (.ok (some ⟨fast, hint, (fb2.drop 4).take (beVal (fb2.take 4)),
          (fb2.drop 4).drop (beVal (fb2.take 4))⟩), remaining)

/-- `FrameDecoder::decode` (frame.rs:138-195).  The second component is the
buffer as the call leaves it: untouched on `Ok(None)` and on the pre-consume
`Size` error, advanced past the frame otherwise. -/
def FrameDecoder.decode (max_frame_size : Nat) (buf : List Nat) :
    Except WireError (Option Frame) × List Nat :=
  if buf.length < 4 then (.ok none, buf)
  else if beVal (buf.take 4) > max_frame_size then (.error (.Size (beVal (buf.take 4))), buf)
  else if buf.length < 4 + beVal (buf.take 4) then (.ok none, buf)
  else
    match FastHeader.decode ((buf.drop 4).take (beVal (buf.take 4))) with
    | .error e => (.error e, (buf.drop 4).drop (beVal (buf.take 4)))
    | .ok (fast, fb1) =>
      if fast.hdr_hint_len > 0 then
        if fb1.length < fast.hdr_hint_len then
          (.error .Malformed, (buf.drop 4).drop (beVal (buf.take 4)))
        else
          decodeTail fast (some (fb1.take fast.hdr_hint_len))
            (fb1.drop fast.hdr_hint_len) ((buf.drop 4).drop (beVal (buf.take 4)))
      else
        decodeTail fast none fb1 ((buf.drop 4).drop (beVal (buf.take 4)))

theorem length_fastHeader_encode (hd : FastHeader) : hd.encode.length = 48 := by
  simp [FastHeader.encode, length_beBytes]

/-- Decoding the metadata/payload section written by `Frame::encode` restores
the metadata and payload. -/
theorem decodeTail_encode (fast : FastHeader) (hint : Option (List Nat))
    (meta pay : List Nat) (hmeta : meta.length ≤ MAX_META_SIZE) :
    decodeTail fast hint (beBytes 4 meta.length ++ (meta ++ pay)) [] =
      (.ok (some ⟨fast, hint, meta, pay⟩), []) := by
  have hp4 : (256 : Nat) ^ 4 = 4294967296 := by norm_num
  have hmax : MAX_META_SIZE = 65536 := by norm_num [MAX_META_SIZE]
  have hlen : (beBytes 4 meta.length ++ (meta ++ pay)).length =
      4 + (meta.length + pay.length) := by
    simp [length_beBytes]
  have hval : beVal ((beBytes 4 meta.length ++ (meta ++ pay)).take 4) = meta.length := by
    rw [take_beBytes_append]
    exact beVal_beBytes 4 meta.length (by omega)
  have hdrop : (beBytes 4 meta.length ++ (meta ++ pay)).drop 4 = meta ++ pay :=
    drop_beBytes_append 4 meta.length (meta ++ pay)
  unfold decodeTail
  rw [if_neg (by omega), hval, hdrop]
  rw [if_neg (by simp; omega)]
  rw [take_length_append, drop_length_append]

/-!
### C4 — frame encode/decode round trip

The claim's hypotheses constrain `hdr_hint_len` only when a hint is present
("hint is either absent or non-empty with hdr_hint_len equal to its length").
A frame with no hint but a nonzero `hdr_hint_len` satisfies them, yet
`FrameDecoder::decode` trusts `hdr_hint_len` (frame.rs:165-172) and misparses
the frame, so the round trip fails.  The amended claim also requires
`hdr_hint_len = 0` when the hint is absent.
-/

/-- C4 (counterexample): the frame with a valid fast header (version 1, type
Data, TTL 16, reserved 0), no hint, empty metadata and payload, but
`hdr_hint_len = 1`, satisfies every hypothesis of the claim as stated, yet
decoding its encoding yields `Malformed` instead of the frame. -/
theorem frame_roundtrip_counterexample :
    (Frame.mk ⟨1, .Data, ⟨false, false, false, false, false, false⟩, .Ok,
        16, 0, 0, 0, 0, 0, 0, 1⟩ none [] []).fast.ver = 1 ∧
    (Frame.mk ⟨1, .Data, ⟨false, false, false, false, false, false⟩, .Ok,
        16, 0, 0, 0, 0, 0, 0, 1⟩ none [] []).fast.ttl ≠ 0 ∧
    (Frame.mk ⟨1, .Data, ⟨false, false, false, false, false, false⟩, .Ok,
        16, 0, 0, 0, 0, 0, 0, 1⟩ none [] []).fast.reserved0 = 0 ∧
    (Frame.mk ⟨1, .Data, ⟨false, false, false, false, false, false⟩, .Ok,
        16, 0, 0, 0, 0, 0, 0, 1⟩ none [] []).meta_raw.length ≤ MAX_META_SIZE ∧
    Frame.encode (Frame.mk ⟨1, .Data, ⟨false, false, false, false, false, false⟩, .Ok,
        16, 0, 0, 0, 0, 0, 0, 1⟩ none [] []) DEFAULT_MAX_FRAME_SIZE =
      .ok (Frame.encodeBytes (Frame.mk ⟨1, .Data, ⟨false, false, false, false, false, false⟩,
        .Ok, 16, 0, 0, 0, 0, 0, 0, 1⟩ none [] [])) ∧
    FrameDecoder.decode DEFAULT_MAX_FRAME_SIZE
      (Frame.encodeBytes (Frame.mk ⟨1, .Data, ⟨false, false, false, false, false, false⟩,
        .Ok, 16, 0, 0, 0, 0, 0, 0, 1⟩ none [] [])) ≠
      (.ok (some (Frame.mk ⟨1, .Data, ⟨false, false, false, false, false, false⟩, .Ok,
        16, 0, 0, 0, 0, 0, 0, 1⟩ none [] [])), []) := by
  decide

/-- C4 (amended): for every frame with a valid fast header whose integer fields
fit their widths, metadata of at most 64 KiB, hint either absent with
`hdr_hint_len = 0` or non-empty with `hdr_hint_len` equal to its length, and
total encoded size within the default frame limit, encoding succeeds and
decoding the produced bytes yields exactly the original frame with an empty
remainder. -/
theorem frame_encode_decode_roundtrip (f : Frame)
    (hver : f.fast.ver = 1) (httl0 : f.fast.ttl ≠ 0) (httl : f.fast.ttl < 256 ^ 1)
    (hres : f.fast.reserved0 = 0)
    (hmsg : f.fast.msg_id < 256 ^ 8) (hcorr : f.fast.corr_id < 256 ^ 8)
    (hsrc : f.fast.src_node < 256 ^ 8) (hdst : f.fast.dst_node < 256 ^ 8)
    (hroute : f.fast.route < 256 ^ 4)
    (hhintn : f.hint = none → f.fast.hdr_hint_len = 0)
    (hhints : ∀ h, f.hint = some h → h ≠ [] ∧ f.fast.hdr_hint_len = h.length)
    (hmeta : f.meta_raw.length ≤ MAX_META_SIZE)
    (hsize : f.encodedSize ≤ DEFAULT_MAX_FRAME_SIZE) :
    Frame.encode f DEFAULT_MAX_FRAME_SIZE = .ok f.encodeBytes ∧
    FrameDecoder.decode DEFAULT_MAX_FRAME_SIZE f.encodeBytes = (.ok (some f), []) := by
  have hp4 : (256 : Nat) ^ 4 = 4294967296 := by norm_num
  have hdef : DEFAULT_MAX_FRAME_SIZE = 16777216 := by norm_num [DEFAULT_MAX_FRAME_SIZE]
  have hmax : MAX_META_SIZE = 65536 := by norm_num [MAX_META_SIZE]
  refine ⟨?_, ?_⟩
  · unfold Frame.encode
    rw [if_neg (by omega)]
  · obtain ⟨fast, hint, meta, pay⟩ := f
    dsimp only at hver httl0 httl hres hmsg hcorr hsrc hdst hroute hhintn hhints hmeta hsize ⊢
    cases hint with
    | none =>
      have hh0 : fast.hdr_hint_len = 0 := hhintn rfl
      have hsz : Frame.encodedSize ⟨fast, none, meta, pay⟩ =
          4 + 48 + 0 + 4 + meta.length + pay.length := rfl
      rw [hsz] at hsize
      have hbytes : Frame.encodeBytes ⟨fast, none, meta, pay⟩ =
          beBytes 4 (48 + 0 + 4 + meta.length + pay.length) ++
          (fast.encode ++ ([] ++ (beBytes 4 meta.length ++ (meta ++ pay)))) := by
        unfold Frame.encodeBytes
        rw [hsz]
        have : 4 + 48 + 0 + 4 + meta.length + pay.length - 4 =
            48 + 0 + 4 + meta.length + pay.length := by omega
        rw [this]
      rw [hbytes]
      have hTlen : (fast.encode ++ ([] ++ (beBytes 4 meta.length ++ (meta ++ pay)))).length =
          48 + 0 + 4 + meta.length + pay.length := by
        simp [length_fastHeader_encode, length_beBytes]
        omega
      have hbuflen : (beBytes 4 (48 + 0 + 4 + meta.length + pay.length) ++
          (fast.encode ++ ([] ++ (beBytes 4 meta.length ++ (meta ++ pay))))).length =
          4 + (48 + 0 + 4 + meta.length + pay.length) := by
        simp only [List.length_append, length_beBytes, hTlen]
      have hval : beVal ((beBytes 4 (48 + 0 + 4 + meta.length + pay.length) ++
          (fast.encode ++ ([] ++ (beBytes 4 meta.length ++ (meta ++ pay))))).take 4) =
          48 + 0 + 4 + meta.length + pay.length := by
        rw [take_beBytes_append]
        exact beVal_beBytes _ _ (by omega)
      have hdrop4 : (beBytes 4 (48 + 0 + 4 + meta.length + pay.length) ++
          (fast.encode ++ ([] ++ (beBytes 4 meta.length ++ (meta ++ pay))))).drop 4 =
          fast.encode ++ ([] ++ (beBytes 4 meta.length ++ (meta ++ pay))) :=
        drop_beBytes_append _ _ _
      have hdec : FastHeader.decode (fast.encode ++ ([] ++ (beBytes 4 meta.length ++
          (meta ++ pay)))) = .ok (fast, [] ++ (beBytes 4 meta.length ++ (meta ++ pay))) :=
        FastHeader.decode_encode fast _ hver httl0 httl hres hmsg hcorr hsrc hdst hroute
          (by rw [hh0]; omega)
      unfold FrameDecoder.decode
      rw [if_neg (by omega), hval, if_neg (by omega), if_neg (by omega), hdrop4]
      rw [← hTlen, List.take_length, List.drop_length, hdec]
      simp only [hh0, gt_iff_lt, Nat.lt_irrefl, if_false]
      have : ([] : List Nat) ++ (beBytes 4 meta.length ++ (meta ++ pay)) =
          beBytes 4 meta.length ++ (meta ++ pay) := by simp
      rw [this, decodeTail_encode fast none meta pay hmeta]
    | some h =>
      obtain ⟨hne, hhl⟩ := hhints h rfl
      have hhpos : 0 < h.length := List.length_pos_of_ne_nil hne
      have hsz : Frame.encodedSize ⟨fast, some h, meta, pay⟩ =
          4 + 48 + h.length + 4 + meta.length + pay.length := rfl
      rw [hsz] at hsize
      have hbytes : Frame.encodeBytes ⟨fast, some h, meta, pay⟩ =
          beBytes 4 (48 + h.length + 4 + meta.length + pay.length) ++
          (fast.encode ++ (h ++ (beBytes 4 meta.length ++ (meta ++ pay)))) := by
        unfold Frame.encodeBytes
        rw [hsz]
        have : 4 + 48 + h.length + 4 + meta.length + pay.length - 4 =
            48 + h.length + 4 + meta.length + pay.length := by omega
        rw [this]
      rw [hbytes]
      have hTlen : (fast.encode ++ (h ++ (beBytes 4 meta.length ++ (meta ++ pay)))).length =
          48 + h.length + 4 + meta.length + pay.length := by
        simp [length_fastHeader_encode, length_beBytes]
        omega
      have hbuflen : (beBytes 4 (48 + h.length + 4 + meta.length + pay.length) ++
          (fast.encode ++ (h ++ (beBytes 4 meta.length ++ (meta ++ pay))))).length =
          4 + (48 + h.length + 4 + meta.length + pay.length) := by
        simp only [List.length_append, length_beBytes, hTlen]
      have hval : beVal ((beBytes 4 (48 + h.length + 4 + meta.length + pay.length) ++
          (fast.encode ++ (h ++ (beBytes 4 meta.length ++ (meta ++ pay))))).take 4) =
          48 + h.length + 4 + meta.length + pay.length := by
        rw [take_beBytes_append]
        exact beVal_beBytes _ _ (by omega)
      have hdrop4 : (beBytes 4 (48 + h.length + 4 + meta.length + pay.length) ++
          (fast.encode ++ (h ++ (beBytes 4 meta.length ++ (meta ++ pay))))).drop 4 =
          fast.encode ++ (h ++ (beBytes 4 meta.length ++ (meta ++ pay))) :=
        drop_beBytes_append _ _ _
      have hdec : FastHeader.decode (fast.encode ++ (h ++ (beBytes 4 meta.length ++
          (meta ++ pay)))) = .ok (fast, h ++ (beBytes 4 meta.length ++ (meta ++ pay))) :=
        FastHeader.decode_encode fast _ hver httl0 httl hres hmsg hcorr hsrc hdst hroute
          (by rw [hhl]; omega)
      unfold FrameDecoder.decode
      rw [if_neg (by omega), hval, if_neg (by omega), if_neg (by omega), hdrop4]
      rw [← hTlen, List.take_length, List.drop_length, hdec]
      simp only [hhl]
      rw [if_pos hhpos]
      rw [if_neg (by simp only [List.length_append, length_beBytes]; omega)]
      rw [take_length_append, drop_length_append]
      rw [decodeTail_encode fast (some h) meta pay hmeta]

/-- C4 witness: concrete application of the amended round-trip theorem. -/
theorem frame_encode_decode_roundtrip_witness :
    Frame.encode (Frame.mk ⟨1, .Data, ⟨true, false, false, false, false, false⟩, .Ok,
        16, 0, 7, 9, 11, 13, 5, 2⟩ (some [250, 251]) [1, 2, 3] [4, 5])
      DEFAULT_MAX_FRAME_SIZE =
      .ok (Frame.encodeBytes (Frame.mk ⟨1, .Data, ⟨true, false, false, false, false, false⟩,
        .Ok, 16, 0, 7, 9, 11, 13, 5, 2⟩ (some [250, 251]) [1, 2, 3] [4, 5])) ∧
    FrameDecoder.decode DEFAULT_MAX_FRAME_SIZE
      (Frame.encodeBytes (Frame.mk ⟨1, .Data, ⟨true, false, false, false, false, false⟩,
        .Ok, 16, 0, 7, 9, 11, 13, 5, 2⟩ (some [250, 251]) [1, 2, 3] [4, 5])) =
      (.ok (some (Frame.mk ⟨1, .Data, ⟨true, false, false, false, false, false⟩, .Ok,
        16, 0, 7, 9, 11, 13, 5, 2⟩ (some [250, 251]) [1, 2, 3] [4, 5])), []) :=
  frame_encode_decode_roundtrip _ rfl (by decide) (by decide) rfl (by decide) (by decide)
    (by decide) (by decide) (by decide) (by intro hh; cases hh)
    (by intro h hh; cases hh; exact ⟨by decide, rfl⟩) (by decide) (by decide)

/-!
### C10 — decoder behaviour on an incomplete buffer

The claim says every buffer not yet containing a complete frame yields
`Ok(None)` with the buffer untouched.  That holds only when the announced frame
length passes the size limit check, which runs *first* (frame.rs:148-150): a
4-byte buffer announcing an oversize frame is also "incomplete", yet decode
returns `Err(Size)`.
-/

/-- C10 (counterexample): the 4-byte buffer `[1, 64, 0, 0]` announces a frame
length of 20971520 > 16 MiB; it does not contain a complete frame (4 < 4 +
20971520), yet `decode` returns `Err(Size)` rather than `Ok(None)`. -/
theorem frame_decoder_incomplete_counterexample :
    ([1, 64, 0, 0] : List Nat).length < 4 + beVal (([1, 64, 0, 0] : List Nat).take 4) ∧
    FrameDecoder.decode DEFAULT_MAX_FRAME_SIZE [1, 64, 0, 0] ≠
      ((.ok none : Except WireError (Option Frame)), ([1, 64, 0, 0] : List Nat)) ∧
    FrameDecoder.decode DEFAULT_MAX_FRAME_SIZE [1, 64, 0, 0] =
      ((.error (.Size 20971520) : Except WireError (Option Frame)),
        ([1, 64, 0, 0] : List Nat)) := by
  decide

/-- C10 (amended): whenever the buffer holds fewer than 4 bytes, or announces a
frame length within the decoder's limit but holds fewer than `4 + frame_len`
bytes, `decode` returns `Ok(None)` and leaves the buffer exactly as it was. -/
theorem frame_decoder_incomplete_no_consume (max_frame_size : Nat) (buf : List Nat)
    (h : buf.length < 4 ∨
      (4 ≤ buf.length ∧ beVal (buf.take 4) ≤ max_frame_size ∧
        buf.length < 4 + beVal (buf.take 4))) :
    FrameDecoder.decode max_frame_size buf = (.ok none, buf) := by
  rcases h with h | ⟨h4, hsz, hincomplete⟩
  · unfold FrameDecoder.decode
    rw [if_pos h]
  · unfold FrameDecoder.decode
    rw [if_neg (by omega), if_neg (by omega), if_pos hincomplete]

/-- C10 witness: concrete application of the amended theorem. -/
theorem frame_decoder_incomplete_no_consume_witness :
    FrameDecoder.decode DEFAULT_MAX_FRAME_SIZE [0, 0, 0, 5, 9] =
      (.ok none, [0, 0, 0, 5, 9]) :=
  frame_decoder_incomplete_no_consume DEFAULT_MAX_FRAME_SIZE [0, 0, 0, 5, 9]
    (Or.inr (by refine ⟨by decide, by decide, by decide⟩))

end Wire

/-! ## Routing: next hops, ECMP selection, routing decision

Embedding of `src/services/mesh/routing/src/next_hop.rs`, `ecmp.rs`,
`router.rs` and `RoutingTable::decide` from `table.rs`.  The `DashMap` routing
table is an association list `dst_node -> HopSet`; the `DefaultHasher` digest
used by the ECMP selector is supplied as an opaque `hashVal` argument. -/

namespace Routing

/-- `NextHop` (next_hop.rs:8-15). -/
structure NextHop where
  node_id : Nat
  cost : Nat
  interface : Option String
deriving Repr, DecidableEq

/-- `NextHop::new`. -/
def NextHop.new (node_id cost : Nat) : NextHop := ⟨node_id, cost, none⟩

/-- `HopSet` (next_hop.rs:39-44); the `HashSet<NextHop>` is a list. -/
structure HopSet where
  hops : List NextHop
  cost : Nat
deriving Repr, DecidableEq

/-- `HopSet::single` (next_hop.rs:56-61). -/
def HopSet.single (hop : NextHop) : HopSet := ⟨[hop], hop.cost⟩

/-- `DropReason` (router.rs:22-33). -/
inductive DropReason
  | NoRoute | TtlExpired | InvalidDestination | RoutingLoop | AdminProhibited
deriving Repr, DecidableEq

/-- `EcmpDecision` (ecmp.rs:91-98). -/
structure EcmpDecision where
  next_hop : NextHop
  total_hops : Nat
  cost : Nat
deriving Repr, DecidableEq

/-- `RoutingDecision` (router.rs:11-18). -/
inductive RoutingDecision
  | Forward (d : EcmpDecision)
  | Local
  | Drop (r : DropReason)
deriving Repr, DecidableEq

/-- `RoutingContext` (router.rs:49-64). -/
structure RoutingContext where
  src_node : Nat
  dst_node : Nat
  ttl : Nat
  corr_id : Nat
  route_class : Nat
  partition : Nat
  epoch : Nat
deriving Repr, DecidableEq

/-- Insertion step of a node-id sort (model of `hops.sort_by_key(|h| h.node_id)`). -/
def insertSorted (h : NextHop) : List NextHop → List NextHop
  | [] => [h]
  | x :: xs => if h.node_id ≤ x.node_id then h :: x :: xs else x :: insertSorted h xs

def sortByNodeId (l : List NextHop) : List NextHop := l.foldr insertSorted []

theorem mem_insertSorted {x h : NextHop} {l : List NextHop}
    (hx : x ∈ insertSorted h l) : x = h ∨ x ∈ l := by
  induction l with
  | nil =>
    simp [insertSorted] at hx
    exact Or.inl hx
  | cons y ys ih =>
    by_cases hc : h.node_id ≤ y.node_id
    · simp only [insertSorted, if_pos hc, List.mem_cons] at hx
      rcases hx with hx | hx | hx
      · exact Or.inl hx
      · exact Or.inr (by simp [hx])
      · exact Or.inr (List.mem_cons_of_mem _ hx)
    · simp only [insertSorted, if_neg hc, List.mem_cons] at hx
      rcases hx with hx | hx
      · exact Or.inr (by simp [hx])
      · rcases ih hx with hx' | hx'
        · exact Or.inl hx'
        · exact Or.inr (List.mem_cons_of_mem _ hx')

theorem mem_sortByNodeId {x : NextHop} {l : List NextHop}
    (hx : x ∈ sortByNodeId l) : x ∈ l := by
  induction l with
  | nil => simp [sortByNodeId] at hx
  | cons y ys ih =>
    rcases mem_insertSorted hx with h | h
    · simp [h]
    · exact List.mem_cons_of_mem _ (ih h)

theorem length_insertSorted (h : NextHop) (l : List NextHop) :
    (insertSorted h l).length = l.length + 1 := by
  induction l with
  | nil => rfl
  | cons y ys ih =>
    by_cases hc : h.node_id ≤ y.node_id
    · simp [insertSorted, hc]
    · simp [insertSorted, hc, ih]

theorem length_sortByNodeId (l : List NextHop) : (sortByNodeId l).length = l.length := by
  induction l with
  | nil => rfl
  | cons y ys ih =>
    simp only [sortByNodeId] at ih ⊢
    simp [length_insertSorted, ih]

/-- `EcmpSelector::select_hop` (ecmp.rs:31-50): `None` on an empty hop set,
else the element at `hash % len` of the node-id-sorted hop list.  `hashVal`
stands for the `DefaultHasher` digest of `(seed, dst_node, corr_id)`. -/
def select_hop (hashVal : Nat) (hop_set : HopSet) : Option NextHop :=
  if hop_set.hops.isEmpty then none
  else (sortByNodeId hop_set.hops).get? (hashVal % (sortByNodeId hop_set.hops).length)

theorem select_hop_empty (hashVal : Nat) (hs : HopSet) (h : hs.hops = []) :
    select_hop hashVal hs = none := by
  simp [select_hop, h]

theorem select_hop_mem (hashVal : Nat) (hs : HopSet) (h : hs.hops ≠ []) :
    ∃ nh, select_hop hashVal hs = some nh ∧ nh ∈ hs.hops := by
  have hne : hs.hops.isEmpty = false := by simpa [List.isEmpty_iff] using h
  have hlen : 0 < (sortByNodeId hs.hops).length := by
    rw [length_sortByNodeId]
    exact List.length_pos.mpr h
  have hidx : hashVal % (sortByNodeId hs.hops).length < (sortByNodeId hs.hops).length :=
    Nat.mod_lt _ hlen
  refine ⟨(sortByNodeId hs.hops).get ⟨hashVal % (sortByNodeId hs.hops).length, hidx⟩, ?_, ?_⟩
  · simp only [select_hop, hne, Bool.false_eq_true, if_false]
    exact List.get?_eq_some.mpr ⟨hidx, rfl⟩
  · exact mem_sortByNodeId (List.get_mem _ _ _)

/-- `RoutingTable::get_route` (table.rs:101-103). -/
def get_route (routes : List (Nat × HopSet)) (dst_node : Nat) : Option HopSet :=
  lookupOpt routes dst_node

/-- `RoutingTable::decide` (table.rs:166-216): local destination, TTL check,
route lookup, ECMP selection. -/
def decide (local_node_id : Nat) (routes : List (Nat × HopSet)) (hashVal : Nat)
    (ctx : RoutingContext) : RoutingDecision :=
  if ctx.dst_node = local_node_id then .Local
  else if ctx.ttl = 0 then .Drop .TtlExpired
  else
    match get_route routes ctx.dst_node with
    | some hop_set =>
      match select_hop hashVal hop_set with
      | some next_hop => .Forward ⟨next_hop, hop_set.hops.length, hop_set.cost⟩
      | none => .Drop .NoRoute
    | none => .Drop .NoRoute

/-!
### C5 — routing decision procedure
-/

/-- C5: `RoutingTable::decide` follows exactly the specified procedure: local
destination first, then TTL, then route lookup (absent or empty hop set drops
with NoRoute), else Forward with a next hop drawn from the hop set. -/
theorem routing_decide_procedure (local_node_id hashVal : Nat)
    (routes : List (Nat × HopSet)) (ctx : RoutingContext) :
    (ctx.dst_node = local_node_id →
      decide local_node_id routes hashVal ctx = .Local) ∧
    (ctx.dst_node ≠ local_node_id → ctx.ttl = 0 →
      decide local_node_id routes hashVal ctx = .Drop .TtlExpired) ∧
    (ctx.dst_node ≠ local_node_id → ctx.ttl ≠ 0 →
      get_route routes ctx.dst_node = none →
      decide local_node_id routes hashVal ctx = .Drop .NoRoute) ∧
    (∀ hs, ctx.dst_node ≠ local_node_id → ctx.ttl ≠ 0 →
      get_route routes ctx.dst_node = some hs → hs.hops = [] →
      decide local_node_id routes hashVal ctx = .Drop .NoRoute) ∧
    (∀ hs, ctx.dst_node ≠ local_node_id → ctx.ttl ≠ 0 →
      get_route routes ctx.dst_node = some hs → hs.hops ≠ [] →
      ∃ nh, nh ∈ hs.hops ∧
        decide local_node_id routes hashVal ctx =
          .Forward ⟨nh, hs.hops.length, hs.cost⟩) := by
  refine ⟨?_, ?_, ?_, ?_, ?_⟩
  · intro h
    simp [decide, h]
  · intro h1 h2
    simp [decide, h1, h2]
  · intro h1 h2 h3
    simp [decide, h1, h2, h3]
  · intro hs h1 h2 h3 h4
    simp [decide, h1, h2, h3, select_hop_empty hashVal hs h4]
  · intro hs h1 h2 h3 h4
    obtain ⟨nh, hsel, hmem⟩ := select_hop_mem hashVal hs h4
    exact ⟨nh, hmem, by simp [decide, h1, h2, h3, hsel]⟩

/-- C5 witness: concrete application (the Forward branch, a two-hop set). -/
theorem routing_decide_procedure_witness :
    ∃ nh, nh ∈ (HopSet.mk [NextHop.new 3 5, NextHop.new 4 5] 5).hops ∧
      decide 1 [(2, HopSet.mk [NextHop.new 3 5, NextHop.new 4 5] 5)] 1
        ⟨1, 2, 8, 42, 0, 0, 0⟩ =
        .Forward ⟨nh, (HopSet.mk [NextHop.new 3 5, NextHop.new 4 5] 5).hops.length,
          (HopSet.mk [NextHop.new 3 5, NextHop.new 4 5] 5).cost⟩ :=
  (routing_decide_procedure 1 1 [(2, HopSet.mk [NextHop.new 3 5, NextHop.new 4 5] 5)]
    ⟨1, 2, 8, 42, 0, 0, 0⟩).2.2.2.2
    (HopSet.mk [NextHop.new 3 5, NextHop.new 4 5] 5)
    (by decide) (by decide) (by decide) (by decide)

end Routing

/-! ## Topology database: Dijkstra route computation

Embedding of `TopologyDatabase::compute_routes` from
`src/services/mesh/topology/src/link_state/database.rs` (lines 130-203).  The
`HashMap<u64, NodeInfo>` is an association list (a fixed iteration order; the
Rust iteration order is unspecified, but every fact proved below is
order-independent).  The `BinaryHeap<Reverse<(u32, u64)>>` is a list from
which `heapPop` extracts the lexicographically least entry.  The loop is run
on explicit fuel: with non-negative `u32` edge costs each node is settled at
its first non-skipped pop, so the heap receives at most one entry per node
plus one per edge and the quadratic fuel below is ample; the loop stops as
soon as the heap is empty, leaving surplus fuel unused. -/

namespace Topology

/-- `LinkInfo` (link_state.rs). -/
structure LinkInfo where
  cost : Nat
  addr : String
  last_seen : Nat
deriving Repr, DecidableEq

/-- `NodeInfo` (link_state.rs). -/
structure NodeInfo where
  node_id : Nat
  sequence_number : Nat
  last_updated : Nat
  neighbors : List (Nat × LinkInfo)
deriving Repr, DecidableEq

/-- `ComputedRoute` (link_state.rs). -/
structure ComputedRoute where
  dst_node : Nat
  next_hop : Nat
  total_cost : Nat
  hop_count : Nat
deriving Repr, DecidableEq

def U32_MAX : Nat := 4294967295

/-- `u32::saturating_add`. -/
def satAdd (a b : Nat) : Nat := min (a + b) U32_MAX

/-- The mutable state of the Dijkstra loop: `distances`, `previous`, and the
`unvisited` heap (a multiset of `(dist, node)` entries). -/
structure DijState where
  distances : List (Nat × Nat)
  previous : List (Nat × Nat)
  heap : List (Nat × Nat)
deriving Repr, DecidableEq

/-- `BinaryHeap<Reverse<(u32, u64)>>::pop`: remove and return the
lexicographically least `(dist, node)` entry. -/
def heapPop (hp : List (Nat × Nat)) : Option ((Nat × Nat) × List (Nat × Nat)) :=
  match hp with
  | [] => none
  | x :: xs =>
    let m := xs.foldl
      (fun a b => if b.1 < a.1 ∨ (b.1 = a.1 ∧ b.2 < a.2) then b else a) x
    some (m, hp.erase m)

/-- The relaxation of `current_node`'s neighbors (database.rs:158-169). -/
def relaxNeighbors (u d : Nat) (neighbors : List (Nat × LinkInfo))
    (st : DijState) : DijState :=
  neighbors.foldl
    (fun st nb =>
      if satAdd d nb.2.cost < lookupD st.distances nb.1 U32_MAX then
        { distances := insertKV st.distances nb.1 (satAdd d nb.2.cost),
          previous := insertKV st.previous nb.1 u,
          heap := (satAdd d nb.2.cost, nb.1) :: st.heap }
      else st) st

/-- The `while let Some(Reverse((current_dist, current_node))) = unvisited.pop()`
loop (database.rs:151-170), on fuel. -/
def dijkstraLoop (nodes : List (Nat × NodeInfo)) : Nat → DijState → DijState
  | 0, st => st
  | fuel + 1, st =>
    match heapPop st.heap with
    | none => st
    | some ((d, u), rest) =>
      if d > lookupD st.distances u U32_MAX then
        dijkstraLoop nodes fuel { st with heap := rest }
      else
        match lookupOpt nodes u with
        | some ni =>
          dijkstraLoop nodes fuel (relaxNeighbors u d ni.neighbors { st with heap := rest })
        | none => dijkstraLoop nodes fuel { st with heap := rest }

def totalEdges (nodes : List (Nat × NodeInfo)) : Nat :=
  (nodes.map (fun e => e.2.neighbors.length)).sum

def dijkstraFuel (nodes : List (Nat × NodeInfo)) : Nat :=
  (nodes.length + totalEdges nodes + 2) * (nodes.length + totalEdges nodes + 2)

/-- The `while let Some(&prev_node) = previous.get(&next_hop)` walk-back
(database.rs:179-185), on fuel bounded by the size of `previous` (the chain
visits distinct keys of an acyclic predecessor map). -/
def walkBack (previous : List (Nat × Nat)) (local_node_id : Nat) :
    Nat → Nat → Nat → Nat × Nat
  | 0, next_hop, hop_count => (next_hop, hop_count)
  | fuel + 1, next_hop, hop_count =>
    match lookupOpt previous next_hop with
    | none => (next_hop, hop_count)
    | some prev =>
      if prev = local_node_id then (next_hop, hop_count + 1)
      else walkBack previous local_node_id fuel prev (hop_count + 1)

/-- `TopologyDatabase::compute_routes` (database.rs:130-203): Dijkstra from the
local node, then one `ComputedRoute` (with a single next hop) per reachable
destination. -/
def compute_routes (local_node_id : Nat) (nodes : List (Nat × NodeInfo)) :
    List (Nat × ComputedRoute) :=
  let st0 : DijState :=
    { distances := nodes.foldl
        (fun m e => if e.1 ≠ local_node_id then insertKV m e.1 U32_MAX else m)
        (insertKV [] local_node_id 0),
      previous := [],
      heap := (0, local_node_id) ::
        nodes.filterMap (fun e => if e.1 ≠ local_node_id then some (U32_MAX, e.1) else none) }
  let st := dijkstraLoop nodes (dijkstraFuel nodes) st0
  st.distances.foldl
    (fun routes e =>
      if e.1 ≠ local_node_id ∧ e.2 ≠ U32_MAX then
        insertKV routes e.1
          ⟨e.1, (walkBack st.previous local_node_id (st.previous.length + 1) e.1 0).1,
            e.2, (walkBack st.previous local_node_id (st.previous.length + 1) e.1 0).2⟩
      else routes) []

end Topology

/-- `RoutingTable::update_routes_from_topology` (table.rs:50-71): drop every
non-local route, then install `HopSet::single(NextHop::new(next_hop,
total_cost))` for each computed route. -/
def update_routes_from_topology (local_node_id : Nat)
    (computed_routes : List (Nat × Topology.ComputedRoute))
    (routes : List (Nat × Routing.HopSet)) : List (Nat × Routing.HopSet) :=
  computed_routes.foldl
    (fun t e => insertKV t e.1 (Routing.HopSet.single (Routing.NextHop.new e.2.next_hop e.2.total_cost)))
    (routes.filter (fun e => e.1 == local_node_id))

/-!
### C3 — equal-cost next hops and the installed hop set

`compute_routes` keeps exactly one predecessor per node (strict `<` relaxation,
database.rs:163-166) and `update_routes_from_topology` wraps each computed
route in `HopSet::single` (table.rs:58-61): the installed hop set always has
exactly one member, so tied next hops are not all admitted.
-/

/-- Invariant propagated through `update_routes_from_topology`: every entry is
either the retained local entry or a singleton hop set. -/
theorem update_routes_from_topology_inv (local_node_id : Nat)
    (computed : List (Nat × Topology.ComputedRoute)) (t : List (Nat × Routing.HopSet))
    (ht : ∀ e ∈ t, e.1 = local_node_id ∨ e.2.hops.length = 1) :
    ∀ e ∈ computed.foldl
      (fun t e => insertKV t e.1
        (Routing.HopSet.single (Routing.NextHop.new e.2.next_hop e.2.total_cost))) t,
      e.1 = local_node_id ∨ e.2.hops.length = 1 := by
  induction computed generalizing t with
  | nil => exact ht
  | cons c rest ih =>
    intro e he
    refine ih _ ?_ e he
    intro e' he'
    rcases mem_insertKV he' with h | h
    · right
      rw [h]
      rfl
    · exact ht e' h

/-- The diamond topology 1→{2,3}→4 with unit link costs: two equal-cost paths
from node 1 to node 4. -/
def diamondNodes : List (Nat × Topology.NodeInfo) :=
  [(1, ⟨1, 1, 0, [(2, ⟨1, "", 0⟩), (3, ⟨1, "", 0⟩)]⟩),
   (2, ⟨2, 1, 0, [(4, ⟨1, "", 0⟩)]⟩),
   (3, ⟨3, 1, 0, [(4, ⟨1, "", 0⟩)]⟩)]

/-- C3 (counterexample): in the diamond topology, node 1 reaches node 4 at
minimal total cost 2 both through neighbor 2 (link cost 1, then 2→4 at cost 1)
and through neighbor 3 (likewise), yet the routing table installed from the
computed routes holds the singleton hop set {2} for destination 4 — the tied
next hop 3 is absent. -/
theorem ecmp_tied_hops_counterexample :
    lookupOpt (Topology.compute_routes 1 diamondNodes) 4 = some ⟨4, 2, 2, 2⟩ ∧
    lookupOpt (Topology.compute_routes 2 diamondNodes) 4 = some ⟨4, 4, 1, 1⟩ ∧
    lookupOpt (Topology.compute_routes 3 diamondNodes) 4 = some ⟨4, 4, 1, 1⟩ ∧
    lookupOpt (update_routes_from_topology 1 (Topology.compute_routes 1 diamondNodes) []) 4 =
      some ⟨[⟨2, 2, none⟩], 2⟩ := by
  decide

/-- C3 (amended): after `update_routes_from_topology`, every installed route
for a non-local destination is a singleton hop set: only the single next hop
found by Dijkstra is installed, not the full set of equal-cost hops. -/
theorem update_routes_singleton (local_node_id : Nat)
    (computed : List (Nat × Topology.ComputedRoute))
    (table : List (Nat × Routing.HopSet)) (dst : Nat) (hs : Routing.HopSet)
    (hdst : dst ≠ local_node_id)
    (hlook : lookupOpt (update_routes_from_topology local_node_id computed table) dst =
      some hs) :
    hs.hops.length = 1 := by
  have hbase : ∀ e ∈ table.filter (fun e => e.1 == local_node_id),
      e.1 = local_node_id ∨ e.2.hops.length = 1 := by
    intro e he
    left
    simpa using (List.mem_filter.mp he).2
  have hinv := update_routes_from_topology_inv local_node_id computed _ hbase
  have hmem : (dst, hs) ∈ update_routes_from_topology local_node_id computed table :=
    lookupOpt_mem hlook
  rcases hinv (dst, hs) hmem with h | h
  · exact absurd h hdst
  · exact h

/-- C3 witness: concrete application of the amended theorem. -/
theorem update_routes_singleton_witness :
    (Routing.HopSet.mk [Routing.NextHop.new 2 2] 2).hops.length = 1 :=
  update_routes_singleton 1 [(4, ⟨4, 2, 2, 2⟩)] [] 4
    (Routing.HopSet.mk [Routing.NextHop.new 2 2] 2) (by decide) (by decide)

/-! ## Session manager: broadcast flooding

Embedding of `SessionManager::handle_broadcast_message` from
`src/services/mesh/session/src/manager.rs` (lines 437-517).  The broadcast
cache `DashMap<(u64, u64), u64>` is an association list keyed by
`(src_node, broadcast_id)`; the connected sessions are the node ids of the
`sessions` map (every channel send is modelled as succeeding); `now` is the
insertion timestamp. -/

namespace Manager

/-- `OutboundMessage` (manager.rs:40-61). -/
structure OutboundMessage where
  src_node : Nat
  dst_node : Nat
  payload : List Nat
  headers : List (String × List Nat)
  corr_id : Nat
  msg_id : Option Nat
  require_ack : Bool
  broadcast_id : Option Nat
  broadcast_ttl : Option Nat
  is_broadcast : Bool
deriving Repr, DecidableEq

/-- `InboundMessage` (manager.rs:190-205). -/
structure InboundMessage where
  src_node : Nat
  dst_node : Nat
  payload : List Nat
  headers : List (String × List Nat)
  corr_id : Nat
  msg_id : Option Nat
  require_ack : Bool
deriving Repr, DecidableEq

/-- `BroadcastCache::contains` (manager.rs:122-124). -/
def cacheContains (cache : List ((Nat × Nat) × Nat)) (src_node broadcast_id : Nat) : Bool :=
  cache.any (fun e => decide (e.1 = (src_node, broadcast_id)))

/-- `BroadcastCache::insert` (manager.rs:127-133). -/
def cacheInsert (cache : List ((Nat × Nat) × Nat)) (src_node broadcast_id now : Nat) :
    List ((Nat × Nat) × Nat) :=
  match cache with
  | [] => [((src_node, broadcast_id), now)]
  | e :: rest =>
    if e.1 = (src_node, broadcast_id) then ((src_node, broadcast_id), now) :: rest
    else e :: cacheInsert rest src_node broadcast_id now

/-- The observable effects of one `handle_broadcast_message` call. -/
structure BroadcastResult where
  cache : List ((Nat × Nat) × Nat)
  local_delivery : Option InboundMessage
  forwards : List (Nat × OutboundMessage)
deriving Repr, DecidableEq

/-- The duplicate test of `handle_broadcast_message` (manager.rs:442-448):
only non-zero broadcast ids consult the cache. -/
def isDuplicateBroadcast (cache : List ((Nat × Nat) × Nat)) (message : OutboundMessage) :
    Bool :=
  match message.broadcast_id with
  | some bid => decide (bid ≠ 0) && cacheContains cache message.src_node bid
  | none => false

/-- The cache after `handle_broadcast_message` records the message
(manager.rs:450-454): only non-zero broadcast ids are inserted. -/
def cacheAfterInsert (cache : List ((Nat × Nat) × Nat)) (message : OutboundMessage)
    (now : Nat) : List ((Nat × Nat) × Nat) :=
  match message.broadcast_id with
  | some bid => if bid ≠ 0 then cacheInsert cache message.src_node bid now else cache
  | none => cache

/-- `SessionManager::handle_broadcast_message` (manager.rs:437-517): duplicate
check against the cache (non-zero broadcast ids only), cache insertion, TTL
check, local delivery, then forwarding to every connected session except the
sender with the broadcast TTL decremented (`saturating_sub(1)`). -/
def handle_broadcast_message (local_node_id now : Nat)
    (cache : List ((Nat × Nat) × Nat)) (sessions : List Nat)
    (message : OutboundMessage) : BroadcastResult :=
  if isDuplicateBroadcast cache message then ⟨cache, none, []⟩
  else if message.broadcast_ttl = some 0 then
    ⟨cacheAfterInsert cache message now, none, []⟩
  else
    ⟨cacheAfterInsert cache message now,
     some ⟨message.src_node, local_node_id, message.payload, message.headers,
           message.corr_id, message.msg_id, message.require_ack⟩,
     (sessions.filter (fun node_id => decide (node_id ≠ message.src_node))).map
       (fun node_id =>
         (node_id,
          { message with
            dst_node := node_id,
            broadcast_ttl := message.broadcast_ttl.map (fun t => t - 1) }))⟩

/-!
### C2 — broadcast with TTL 0

The claim says a TTL-0 broadcast is still delivered locally once.  The source
checks the TTL *before* the local delivery (manager.rs:456-462) and returns
early, so a TTL-0 broadcast is dropped entirely: neither forwarded nor
delivered locally.
-/

/-- C2 (counterexample): a fresh broadcast (id 42, TTL 0) from node 1 with
sessions to nodes 2 and 3 is not delivered locally (and not forwarded),
contradicting "still delivered locally once". -/
theorem broadcast_ttl_zero_counterexample :
    (handle_broadcast_message 9 100 [] [2, 3]
      ⟨1, 0, [7], [], 0, none, false, some 42, some 0, true⟩).local_delivery = none ∧
    (handle_broadcast_message 9 100 [] [2, 3]
      ⟨1, 0, [7], [], 0, none, false, some 42, some 0, true⟩).forwards = [] := by
  decide

/-- C2 (amended): a broadcast whose `broadcast_ttl` is 0 is dropped entirely by
`handle_broadcast_message`: it is forwarded to no peer session and is not
delivered locally either. -/
theorem broadcast_ttl_zero_dropped (local_node_id now : Nat)
    (cache : List ((Nat × Nat) × Nat)) (sessions : List Nat)
    (message : OutboundMessage) (httl : message.broadcast_ttl = some 0) :
    (handle_broadcast_message local_node_id now cache sessions message).local_delivery =
      none ∧
    (handle_broadcast_message local_node_id now cache sessions message).forwards = [] := by
  unfold handle_broadcast_message
  split
  · exact ⟨rfl, rfl⟩
  · simp [httl]

/-- C2 witness: concrete application of the amended theorem. -/
theorem broadcast_ttl_zero_dropped_witness :
    (handle_broadcast_message 9 100 [((1, 41), 50)] [2, 3]
      ⟨1, 0, [7], [], 0, none, false, some 41, some 0, true⟩).local_delivery = none ∧
    (handle_broadcast_message 9 100 [((1, 41), 50)] [2, 3]
      ⟨1, 0, [7], [], 0, none, false, some 41, some 0, true⟩).forwards = [] :=
  broadcast_ttl_zero_dropped 9 100 [((1, 41), 50)] [2, 3]
    ⟨1, 0, [7], [], 0, none, false, some 41, some 0, true⟩ rfl

end Manager

/-! ## The Send RPC validation path

Embedding of `MeshDataService::send` from `src/services/mesh/grpc/src/data.rs`
(lines 434-537), up to and including the hand-off to
`MessageQueue::queue_message` (whose initial `outbound_tx.send` is the only
emission toward the session layer on this path).  The topology database is
the set of known node ids (`None` models a service constructed without one);
`msg_id` is the value produced by the id generator. -/

namespace Grpc

/-- `MessageStatus` (proto). -/
inductive MessageStatus
  | Queued | PendingNode | PendingClient | Delivered | WaitingForClientAck
  | AckSuccess | AckFailure | Undeliverable
deriving Repr, DecidableEq

/-- `SendRequest` (proto), the fields `send` reads. -/
structure SendRequest where
  dst_node : Nat
  payload : List Nat
  headers : List (String × List Nat)
  corr_id : Nat
  require_ack : Bool
deriving Repr, DecidableEq

/-- `SendResponse` (proto). -/
structure SendResponse where
  msg_id : Nat
  status : MessageStatus
  status_message : String
  require_ack : Bool
deriving Repr, DecidableEq

/-- `MeshDataService::is_node_known` (data.rs:180-196). -/
def is_node_known (node_id : Nat) (topology_db : Option (List Nat)) (dst_node : Nat) :
    Bool :=
  if dst_node = node_id then true
  else
    match topology_db with
    | some nodes => nodes.contains dst_node
    | none => decide (dst_node ≠ 0)

/-- What `send` returns to the caller (before the mode-specific waiting, which
only observes later status updates). -/
inductive SendOutcome
  | invalid_argument (reason : String)
  | response (resp : SendResponse)
  | queued (msg_id : Nat)
deriving Repr, DecidableEq

/-- The outcome of `send` together with its effects: the outbound messages
emitted toward the session layer and the `(msg_id, status)` pairs recorded in
the message tracker. -/
structure SendResult where
  outcome : SendOutcome
  emitted : List Manager.OutboundMessage
  tracked : List (Nat × MessageStatus)
deriving Repr, DecidableEq

/-- `MeshDataService::send` (data.rs:434-537): reject `dst_node == 0`, reject
an empty payload, mark an unknown destination `Undeliverable` without queuing,
otherwise track `Queued` and queue the outbound message. -/
def send (node_id : Nat) (topology_db : Option (List Nat)) (msg_id : Nat)
    (req : SendRequest) : SendResult :=
  if req.dst_node = 0 then
    ⟨.invalid_argument "dst_node cannot be 0", [], []⟩
  else if req.payload.isEmpty then
    ⟨.invalid_argument "payload cannot be empty", [], []⟩
  else if is_node_known node_id topology_db req.dst_node = false then
    ⟨.response ⟨msg_id, .Undeliverable,
        "Destination node " ++ toString req.dst_node ++ " is not known in the mesh topology",
        req.require_ack⟩,
     [], [(msg_id, .Undeliverable)]⟩
  else
    ⟨.queued msg_id,
     [⟨node_id, req.dst_node, req.payload, req.headers, req.corr_id, some msg_id,
       req.require_ack, none, none, false⟩],
     [(msg_id, .Queued)]⟩

/-!
### C6 — Send with `dst_node = 0` and with an empty payload

The claim says `dst_node = 0` is treated as a broadcast (accepted and
flooded).  The source rejects it up front with `invalid_argument("dst_node
cannot be 0")` (data.rs:446-448); broadcasts go through the separate
`broadcast_state_event` RPC instead.  The empty-payload rejection holds.
-/

/-- C6 (counterexample): a Send request with `dst_node = 0` and a non-empty
payload is rejected with an invalid-argument error — it is failed, not
accepted and flooded. -/
theorem send_dst_zero_counterexample :
    send 1 (some [2, 3]) 5 ⟨0, [1, 2], [], 0, false⟩ =
      ⟨.invalid_argument "dst_node cannot be 0", [], []⟩ := by
  decide

/-- C6 (amended): for the Send RPC, a request with `dst_node = 0` is rejected
with an invalid-argument error (nothing queued, nothing emitted), and a
request with an empty payload is likewise rejected. -/
theorem send_validation (node_id : Nat) (topology_db : Option (List Nat))
    (msg_id : Nat) (req : SendRequest) :
    (req.dst_node = 0 →
      send node_id topology_db msg_id req =
        ⟨.invalid_argument "dst_node cannot be 0", [], []⟩) ∧
    (req.dst_node ≠ 0 → req.payload = [] →
      send node_id topology_db msg_id req =
        ⟨.invalid_argument "payload cannot be empty", [], []⟩) := by
  constructor
  · intro h
    simp [send, h]
  · intro h1 h2
    simp [send, h1, h2]

/-- C6 witness: concrete application of the amended theorem (the empty-payload
branch). -/
theorem send_validation_witness :
    send 1 (some [2, 3]) 5 ⟨2, [], [], 0, false⟩ =
      ⟨.invalid_argument "payload cannot be empty", [], []⟩ :=
  (send_validation 1 (some [2, 3]) 5 ⟨2, [], [], 0, false⟩).2 (by decide) rfl

/-!
### C7 — unknown destination is immediately Undeliverable
-/

/-- C7: when the destination is neither the local node nor present in the
topology database, `send` returns the terminal `Undeliverable` status at once:
nothing is queued and nothing is emitted toward the session layer (no frames
on the wire), and the only tracker record is the `Undeliverable` one. -/
theorem send_unknown_destination_undeliverable (node_id msg_id : Nat)
    (nodes : List Nat) (req : SendRequest)
    (h0 : req.dst_node ≠ 0) (hp : req.payload ≠ [])
    (hl : req.dst_node ≠ node_id) (hn : nodes.contains req.dst_node = false) :
    send node_id (some nodes) msg_id req =
      ⟨.response ⟨msg_id, .Undeliverable,
          "Destination node " ++ toString req.dst_node ++
            " is not known in the mesh topology",
          req.require_ack⟩,
       [], [(msg_id, .Undeliverable)]⟩ := by
  have hknown : is_node_known node_id (some nodes) req.dst_node = false := by
    unfold is_node_known
    rw [if_neg hl]
    exact hn
  simp [send, h0, hp, hknown]

/-- C7 witness: concrete application of the theorem. -/
theorem send_unknown_destination_undeliverable_witness :
    send 1 (some [2, 3]) 5 ⟨9999, [1], [], 0, true⟩ =
      ⟨.response ⟨5, .Undeliverable,
          "Destination node " ++ toString (9999 : Nat) ++
            " is not known in the mesh topology", true⟩,
       [], [(5, .Undeliverable)]⟩ :=
  send_unknown_destination_undeliverable 1 5 [2, 3] ⟨9999, [1], [], 0, true⟩
    (by decide) (by decide) (by decide) (by decide)

end Grpc

/-! ## Message queue: the retry processor

Embedding of the retry tick of `MessageQueue::start_retry_processor` from
`src/services/mesh/grpc/src/message_queue.rs` (lines 144-232).  One tick scans
`pending_messages` for due messages, removes each from the map, increments its
retry count, transitions it to `Undeliverable` when the count exceeds
`max_retry_attempts`, and otherwise resends it with exponential backoff and
re-inserts it.  `sendOk` models whether `outbound_tx.send` succeeds (the
channel being open). -/

/-- `DashMap::remove`, returning the removed value and the remaining map. -/
def removeKV {α : Type} (m : List (Nat × α)) (k : Nat) : Option (α × List (Nat × α)) :=
  match m with
  | [] => none
  | e :: rest =>
    if e.1 = k then some (e.2, rest)
    else
      match removeKV rest k with
      | some (v, rest') => some (v, e :: rest')
      | none => none

theorem removeKV_none {α : Type} {m : List (Nat × α)} {k : Nat}
    (h : removeKV m k = none) : lookupOpt m k = none := by
  induction m with
  | nil => rfl
  | cons e rest ih =>
    by_cases he : e.1 = k
    · simp [removeKV, he] at h
    · simp only [removeKV, if_neg he] at h
      simp only [lookupOpt, if_neg he]
      cases hr : removeKV rest k with
      | none => exact ih hr
      | some pr => simp [hr] at h

theorem removeKV_some_lookup {α : Type} {m : List (Nat × α)} {k : Nat}
    {v : α} {rest : List (Nat × α)}
    (h : removeKV m k = some (v, rest)) : lookupOpt m k = some v := by
  induction m generalizing rest with
  | nil => simp [removeKV] at h
  | cons e rest0 ih =>
    by_cases he : e.1 = k
    · simp only [removeKV, if_pos he, Option.some.injEq, Prod.mk.injEq] at h
      simp [lookupOpt, he, h.1]
    · simp only [removeKV, if_neg he] at h
      simp only [lookupOpt, if_neg he]
      cases hr : removeKV rest0 k with
      | none => simp [hr] at h
      | some pr =>
        obtain ⟨v', rest'⟩ := pr
        simp only [hr, Option.some.injEq, Prod.mk.injEq] at h
        rw [h.1] at hr
        exact ih hr

theorem removeKV_some_lookup_ne {α : Type} {m : List (Nat × α)} {k : Nat}
    {v : α} {rest : List (Nat × α)}
    (h : removeKV m k = some (v, rest)) {k' : Nat} (hne : k' ≠ k) :
    lookupOpt rest k' = lookupOpt m k' := by
  induction m generalizing rest with
  | nil => simp [removeKV] at h
  | cons e rest0 ih =>
    by_cases he : e.1 = k
    · simp only [removeKV, if_pos he, Option.some.injEq, Prod.mk.injEq] at h
      rw [← h.2]
      have : e.1 ≠ k' := fun hh => hne (by rw [← hh, he])
      simp [lookupOpt, this]
    · simp only [removeKV, if_neg he] at h
      cases hr : removeKV rest0 k with
      | none => simp [hr] at h
      | some pr =>
        obtain ⟨v', rest'⟩ := pr
        simp only [hr, Option.some.injEq, Prod.mk.injEq] at h
        rw [← h.2]
        by_cases he' : e.1 = k'
        · simp [lookupOpt, he']
        · simp only [lookupOpt, if_neg he']
          rw [h.1] at hr
          exact ih hr

theorem removeKV_some_mem {α : Type} {m : List (Nat × α)} {k : Nat}
    {v : α} {rest : List (Nat × α)}
    (h : removeKV m k = some (v, rest)) : ∀ e ∈ rest, e ∈ m := by
  induction m generalizing rest with
  | nil => simp [removeKV] at h
  | cons e rest0 ih =>
    by_cases he : e.1 = k
    · simp only [removeKV, if_pos he, Option.some.injEq, Prod.mk.injEq] at h
      intro x hx
      rw [← h.2] at hx
      exact List.mem_cons_of_mem _ hx
    · simp only [removeKV, if_neg he] at h
      cases hr : removeKV rest0 k with
      | none => simp [hr] at h
      | some pr =>
        obtain ⟨v', rest'⟩ := pr
        simp only [hr, Option.some.injEq, Prod.mk.injEq] at h
        intro x hx
        rw [← h.2] at hx
        rcases List.mem_cons.mp hx with hx | hx
        · exact hx ▸ List.mem_cons_self _ _
        · rw [h.1] at hr
          exact List.mem_cons_of_mem _ (ih hr x hx)

theorem removeKV_some_nodup {α : Type} {m : List (Nat × α)} {k : Nat}
    {v : α} {rest : List (Nat × α)}
    (hd : (m.map Prod.fst).Nodup) (h : removeKV m k = some (v, rest)) :
    (rest.map Prod.fst).Nodup ∧ k ∉ rest.map Prod.fst := by
  induction m generalizing rest with
  | nil => simp [removeKV] at h
  | cons e rest0 ih =>
    simp only [List.map_cons, List.nodup_cons] at hd
    by_cases he : e.1 = k
    · simp only [removeKV, if_pos he, Option.some.injEq, Prod.mk.injEq] at h
      rw [← h.2]
      exact ⟨hd.2, he ▸ hd.1⟩
    · simp only [removeKV, if_neg he] at h
      cases hr : removeKV rest0 k with
      | none => simp [hr] at h
      | some pr =>
        obtain ⟨v', rest'⟩ := pr
        simp only [hr, Option.some.injEq, Prod.mk.injEq] at h
        rw [h.1] at hr
        obtain ⟨hn', hk'⟩ := ih hd.2 hr
        rw [← h.2]
        refine ⟨?_, ?_⟩
        · simp only [List.map_cons, List.nodup_cons]
          refine ⟨?_, hn'⟩
          intro hmem
          obtain ⟨x, hx, hx1⟩ := List.mem_map.mp hmem
          exact hd.1 (List.mem_map.mpr ⟨x, removeKV_some_mem hr x hx, hx1⟩)
        · simp only [List.map_cons, List.mem_cons]
          rintro (hk | hk)
          · exact he hk.symm
          · exact hk' hk

theorem keys_insertKV_mem {α : Type} {m : List (Nat × α)} {k x : Nat} {v : α}
    (h : x ∈ (insertKV m k v).map Prod.fst) : x ∈ m.map Prod.fst ∨ x = k := by
  obtain ⟨e, he, he1⟩ := List.mem_map.mp h
  rcases mem_insertKV he with h' | h'
  · right
    rw [← he1, h']
  · left
    exact List.mem_map.mpr ⟨e, h', he1⟩

theorem nodup_keys_insertKV {α : Type} {m : List (Nat × α)} {k : Nat} {v : α}
    (hd : (m.map Prod.fst).Nodup) : ((insertKV m k v).map Prod.fst).Nodup := by
  induction m with
  | nil => simp [insertKV]
  | cons e rest ih =>
    simp only [List.map_cons, List.nodup_cons] at hd
    by_cases he : e.1 = k
    · simp only [insertKV, if_pos he, List.map_cons, List.nodup_cons]
      exact ⟨he ▸ hd.1, hd.2⟩
    · simp only [insertKV, if_neg he, List.map_cons, List.nodup_cons]
      refine ⟨?_, ih hd.2⟩
      intro hmem
      rcases keys_insertKV_mem hmem with h' | h'
      · exact hd.1 h'
      · exact he h'

theorem lookupOpt_of_mem_nodup {α : Type} {m : List (Nat × α)}
    (hd : (m.map Prod.fst).Nodup) {i : Nat} {q : α} (h : (i, q) ∈ m) :
    lookupOpt m i = some q := by
  induction m with
  | nil => simp at h
  | cons e rest ih =>
    simp only [List.map_cons, List.nodup_cons] at hd
    rcases List.mem_cons.mp h with h' | h'
    · rw [← h']
      simp [lookupOpt]
    · have he : e.1 ≠ i := by
        intro hh
        exact hd.1 (List.mem_map.mpr ⟨(i, q), h', by simp [hh]⟩)
      simp only [lookupOpt, if_neg he]
      exact ih hd.2 h'

namespace MessageQueue

/-- `MessageQueueConfig` (message_queue.rs:16-27); intervals in seconds. -/
structure MessageQueueConfig where
  max_retry_attempts : Nat
  base_retry_interval : Nat
  max_retry_interval : Nat
  retry_check_interval : Nat
  completed_message_ttl : Nat
deriving Repr, DecidableEq

/-- `MessageQueueConfig::default` (message_queue.rs:29-39). -/
def MessageQueueConfig.default : MessageQueueConfig := ⟨10, 1, 60, 5, 300⟩

/-- `QueuedMessage` (message_queue.rs:42-58), the fields the retry processor
touches (`Instant`s as seconds). -/
structure QueuedMessage where
  message : Manager.OutboundMessage
  retry_count : Nat
  queued_at : Nat
  next_retry_at : Nat
deriving Repr, DecidableEq

/-- The effects of one retry tick: the pending map afterwards, the ids
transitioned to the terminal `Undeliverable` status, and the `(msg_id,
retry_count)` of each message resent through `outbound_tx`. -/
structure RetryTickResult where
  pending : List (Nat × QueuedMessage)
  undeliverable : List Nat
  resent : List (Nat × Nat)
deriving Repr, DecidableEq

/-- Processing of one due message (message_queue.rs:166-227): remove it,
increment its retry count; past the maximum mark `Undeliverable`; otherwise
compute the exponential-backoff delay, resend, and re-insert (a failed channel
send also marks `Undeliverable` without re-inserting). -/
def processRetry (cfg : MessageQueueConfig) (now : Nat) (sendOk : Bool)
    (acc : RetryTickResult) (msg_id : Nat) : RetryTickResult :=
  match removeKV acc.pending msg_id with
  | none => acc
  | some (qm, rest) =>
    if qm.retry_count + 1 > cfg.max_retry_attempts then
      ⟨rest, acc.undeliverable ++ [msg_id], acc.resent⟩
    else if sendOk then
      ⟨insertKV rest msg_id
        { qm with
          retry_count := qm.retry_count + 1,
          next_retry_at := now +
            min (cfg.base_retry_interval * 2 ^ (qm.retry_count + 1 - 1))
              cfg.max_retry_interval },
       acc.undeliverable, acc.resent ++ [(msg_id, qm.retry_count + 1)]⟩
    else
      ⟨rest, acc.undeliverable ++ [msg_id], acc.resent⟩

/-- One tick of the retry processor (message_queue.rs:149-228): collect the
ids due for retry (`now >= next_retry_at`), then process each in turn. -/
def start_retry_processor_tick (cfg : MessageQueueConfig) (now : Nat) (sendOk : Bool)
    (pending : List (Nat × QueuedMessage)) : RetryTickResult :=
  ((pending.filter (fun e => decide (e.2.next_retry_at ≤ now))).map Prod.fst).foldl
    (processRetry cfg now sendOk) ⟨pending, [], []⟩

/-- A message that is due this tick and already at the retry maximum. -/
def MaxDue (cfg : MessageQueueConfig) (now : Nat)
    (pending0 : List (Nat × QueuedMessage)) (id : Nat) : Prop :=
  ∃ q, lookupOpt pending0 id = some q ∧ q.next_retry_at ≤ now ∧
    q.retry_count = cfg.max_retry_attempts

/-- The invariant carried through the fold over the due list: `ds` is the
remaining part of the due list, `acc` the accumulated state. -/
structure TickInv (cfg : MessageQueueConfig) (now : Nat)
    (pending0 : List (Nat × QueuedMessage)) (ds : List Nat)
    (acc : RetryTickResult) : Prop where
  nodup : (acc.pending.map Prod.fst).Nodup
  bound : ∀ e ∈ acc.pending, e.2.retry_count ≤ cfg.max_retry_attempts
  resent_ok : ∀ r ∈ acc.resent,
    r.2 ≤ cfg.max_retry_attempts ∧ r.1 ∈ pending0.map Prod.fst
  ds_sub : ∀ id ∈ ds, id ∈ pending0.map Prod.fst
  ds_lookup : ∀ id ∈ ds, lookupOpt acc.pending id = lookupOpt pending0 id
  ds_nodup : ds.Nodup
  keys_sub : ∀ x ∈ acc.pending.map Prod.fst, x ∈ pending0.map Prod.fst
  undeliv_ok : ∀ id ∈ acc.undeliverable,
    id ∉ acc.pending.map Prod.fst ∧ id ∉ ds
  complete : ∀ id, MaxDue cfg now pending0 id → id ∈ acc.undeliverable ∨ id ∈ ds

theorem processRetry_none (cfg : MessageQueueConfig) (now : Nat) (sendOk : Bool)
    (acc : RetryTickResult) (id : Nat)
    (hrem : removeKV acc.pending id = none) :
    processRetry cfg now sendOk acc id = acc := by
  unfold processRetry
  rw [hrem]

theorem processRetry_drop (cfg : MessageQueueConfig) (now : Nat) (sendOk : Bool)
    (acc : RetryTickResult) (id : Nat) (qm : QueuedMessage)
    (rest : List (Nat × QueuedMessage))
    (hrem : removeKV acc.pending id = some (qm, rest))
    (hgt : qm.retry_count + 1 > cfg.max_retry_attempts) :
    processRetry cfg now sendOk acc id =
      ⟨rest, acc.undeliverable ++ [id], acc.resent⟩ := by
  unfold processRetry
  rw [hrem]
  simp only [if_pos hgt]

theorem processRetry_sendfail (cfg : MessageQueueConfig) (now : Nat)
    (acc : RetryTickResult) (id : Nat) (qm : QueuedMessage)
    (rest : List (Nat × QueuedMessage))
    (hrem : removeKV acc.pending id = some (qm, rest))
    (hgt : ¬ qm.retry_count + 1 > cfg.max_retry_attempts) :
    processRetry cfg now false acc id =
      ⟨rest, acc.undeliverable ++ [id], acc.resent⟩ := by
  unfold processRetry
  rw [hrem]
  simp only [if_neg hgt]
  rfl

theorem processRetry_resend (cfg : MessageQueueConfig) (now : Nat)
    (acc : RetryTickResult) (id : Nat) (qm : QueuedMessage)
    (rest : List (Nat × QueuedMessage))
    (hrem : removeKV acc.pending id = some (qm, rest))
    (hgt : ¬ qm.retry_count + 1 > cfg.max_retry_attempts) :
    processRetry cfg now true acc id =
      ⟨insertKV rest id
        { qm with
          retry_count := qm.retry_count + 1,
          next_retry_at := now +
            min (cfg.base_retry_interval * 2 ^ (qm.retry_count + 1 - 1))
              cfg.max_retry_interval },
       acc.undeliverable, acc.resent ++ [(id, qm.retry_count + 1)]⟩ := by
  unfold processRetry
  rw [hrem]
  simp only [if_neg hgt]
  rfl

theorem tickInv_drop (cfg : MessageQueueConfig) (now : Nat)
    (pending0 : List (Nat × QueuedMessage)) (id : Nat) (ds : List Nat)
    (acc : RetryTickResult) (qm : QueuedMessage)
    (rest : List (Nat × QueuedMessage))
    (hrem : removeKV acc.pending id = some (qm, rest))
    (h : TickInv cfg now pending0 (id :: ds) acc) :
    TickInv cfg now pending0 ds ⟨rest, acc.undeliverable ++ [id], acc.resent⟩ := by
  obtain ⟨hnd, hb, hr, hds, hdl, hdsn, hks, hu, hc⟩ := h
  obtain ⟨hdid, hdsn'⟩ := List.nodup_cons.mp hdsn
  obtain ⟨hrn, hrid⟩ := removeKV_some_nodup hnd hrem
  have hmemr := removeKV_some_mem hrem
  have hkeys : ∀ x ∈ rest.map Prod.fst, x ∈ acc.pending.map Prod.fst := by
    intro x hx
    obtain ⟨e, he, he1⟩ := List.mem_map.mp hx
    exact List.mem_map.mpr ⟨e, hmemr e he, he1⟩
  refine ⟨hrn, ?_, hr, ?_, ?_, hdsn', ?_, ?_, ?_⟩
  · intro e he
    exact hb e (hmemr e he)
  · intro i hi
    exact hds i (List.mem_cons_of_mem _ hi)
  · intro i hi
    have hne : i ≠ id := fun hh => hdid (hh ▸ hi)
    rw [removeKV_some_lookup_ne hrem hne]
    exact hdl i (List.mem_cons_of_mem _ hi)
  · intro x hx
    exact hks x (hkeys x hx)
  · intro i hi
    rcases List.mem_append.mp hi with hi | hi
    · exact ⟨fun hin => (hu i hi).1 (hkeys i hin),
        fun hin => (hu i hi).2 (List.mem_cons_of_mem _ hin)⟩
    · have hiid : i = id := by simpa using hi
      subst hiid
      exact ⟨hrid, hdid⟩
  · intro i hm
    rcases hc i hm with hcl | hcr
    · exact Or.inl (List.mem_append.mpr (Or.inl hcl))
    · rcases List.mem_cons.mp hcr with hcr | hcr
      · exact Or.inl (List.mem_append.mpr (Or.inr (by simp [hcr])))
      · exact Or.inr hcr

theorem tickInv_step (cfg : MessageQueueConfig) (now : Nat) (sendOk : Bool)
    (pending0 : List (Nat × QueuedMessage)) (id : Nat) (ds : List Nat)
    (acc : RetryTickResult)
    (h : TickInv cfg now pending0 (id :: ds) acc) :
    TickInv cfg now pending0 ds (processRetry cfg now sendOk acc id) := by
  cases hrem : removeKV acc.pending id with
  | none =>
    rw [processRetry_none cfg now sendOk acc id hrem]
    obtain ⟨hnd, hb, hr, hds, hdl, hdsn, hks, hu, hc⟩ := h
    obtain ⟨hdid, hdsn'⟩ := List.nodup_cons.mp hdsn
    refine ⟨hnd, hb, hr, ?_, ?_, hdsn', hks, ?_, ?_⟩
    · intro i hi
      exact hds i (List.mem_cons_of_mem _ hi)
    · intro i hi
      exact hdl i (List.mem_cons_of_mem _ hi)
    · intro i hi
      exact ⟨(hu i hi).1, fun hin => (hu i hi).2 (List.mem_cons_of_mem _ hin)⟩
    · intro i hm
      rcases hc i hm with hcl | hcr
      · exact Or.inl hcl
      · rcases List.mem_cons.mp hcr with hcr | hcr
        · exfalso
          obtain ⟨q, hl, _, _⟩ := hm
          subst hcr
          have h1 := hdl i (List.mem_cons_self _ _)
          rw [removeKV_none hrem, hl] at h1
          exact Option.noConfusion h1
        · exact Or.inr hcr
  | some pr =>
    obtain ⟨qm, rest⟩ := pr
    by_cases hgt : qm.retry_count + 1 > cfg.max_retry_attempts
    · rw [processRetry_drop cfg now sendOk acc id qm rest hrem hgt]
      exact tickInv_drop cfg now pending0 id ds acc qm rest hrem h
    · cases sendOk with
      | false =>
        rw [processRetry_sendfail cfg now acc id qm rest hrem hgt]
        exact tickInv_drop cfg now pending0 id ds acc qm rest hrem h
      | true =>
        rw [processRetry_resend cfg now acc id qm rest hrem hgt]
        have hle : qm.retry_count + 1 ≤ cfg.max_retry_attempts := Nat.le_of_not_lt hgt
        obtain ⟨hnd, hb, hr, hds, hdl, hdsn, hks, hu, hc⟩ := h
        obtain ⟨hdid, hdsn'⟩ := List.nodup_cons.mp hdsn
        obtain ⟨hrn, hrid⟩ := removeKV_some_nodup hnd hrem
        have hmemr := removeKV_some_mem hrem
        have hkeys : ∀ x ∈ rest.map Prod.fst, x ∈ acc.pending.map Prod.fst := by
          intro x hx
          obtain ⟨e, he, he1⟩ := List.mem_map.mp hx
          exact List.mem_map.mpr ⟨e, hmemr e he, he1⟩
        have hlook := removeKV_some_lookup hrem
        have hidmem : id ∈ acc.pending.map Prod.fst :=
          List.mem_map.mpr ⟨(id, qm), lookupOpt_mem hlook, rfl⟩
        have hidds : id ∈ pending0.map Prod.fst := hds id (List.mem_cons_self _ _)
        refine ⟨nodup_keys_insertKV hrn, ?_, ?_, ?_, ?_, hdsn', ?_, ?_, ?_⟩
        · intro e he
          rcases mem_insertKV he with he | he
          · rw [he]
            exact hle
          · exact hb e (hmemr e he)
        · intro r hrr
          rcases List.mem_append.mp hrr with hrr | hrr
          · exact hr r hrr
          · have hreq : r = (id, qm.retry_count + 1) := by simpa using hrr
            rw [hreq]
            exact ⟨hle, hidds⟩
        · intro i hi
          exact hds i (List.mem_cons_of_mem _ hi)
        · intro i hi
          have hne : i ≠ id := fun hh => hdid (hh ▸ hi)
          rw [lookupOpt_insertKV_ne rest id i _ hne, removeKV_some_lookup_ne hrem hne]
          exact hdl i (List.mem_cons_of_mem _ hi)
        · intro x hx
          rcases keys_insertKV_mem hx with hx | hx
          · exact hks x (hkeys x hx)
          · rw [hx]
            exact hidds
        · intro i hi
          have h1 := hu i hi
          have hne : i ≠ id := fun hh => h1.1 (hh ▸ hidmem)
          refine ⟨?_, fun hin => h1.2 (List.mem_cons_of_mem _ hin)⟩
          intro hin
          rcases keys_insertKV_mem hin with hin | hin
          · exact h1.1 (hkeys i hin)
          · exact hne hin
        · intro i hm
          rcases hc i hm with hcl | hcr
          · exact Or.inl hcl
          · rcases List.mem_cons.mp hcr with hcr | hcr
            · exfalso
              obtain ⟨q, hl, hdue, hcnt⟩ := hm
              subst hcr
              have h1 := hdl i (List.mem_cons_self _ _)
              rw [hlook, hl] at h1
              have hq : qm = q := Option.some.inj h1
              rw [hq, hcnt] at hle
              omega
            · exact Or.inr hcr

theorem tickInv_fold (cfg : MessageQueueConfig) (now : Nat) (sendOk : Bool)
    (pending0 : List (Nat × QueuedMessage)) :
    ∀ (ds : List Nat) (acc : RetryTickResult),
      TickInv cfg now pending0 ds acc →
      TickInv cfg now pending0 [] (ds.foldl (processRetry cfg now sendOk) acc) := by
  intro ds
  induction ds with
  | nil =>
    intro acc h
    exact h
  | cons id ds ih =>
    intro acc h
    rw [List.foldl_cons]
    exact ih _ (tickInv_step cfg now sendOk pending0 id ds acc h)

theorem tickInv_init (cfg : MessageQueueConfig) (now : Nat)
    (pending : List (Nat × QueuedMessage))
    (hnodup : (pending.map Prod.fst).Nodup)
    (hbound : ∀ e ∈ pending, e.2.retry_count ≤ cfg.max_retry_attempts) :
    TickInv cfg now pending
      ((pending.filter (fun e => decide (e.2.next_retry_at ≤ now))).map Prod.fst)
      ⟨pending, [], []⟩ := by
  refine ⟨hnodup, hbound, ?_, ?_, ?_, ?_, ?_, ?_, ?_⟩
  · intro r hrr
    simp at hrr
  · intro i hi
    obtain ⟨e, he, he1⟩ := List.mem_map.mp hi
    exact List.mem_map.mpr ⟨e, List.mem_of_mem_filter he, he1⟩
  · intro i _
    rfl
  · exact ((List.filter_sublist _).map Prod.fst).nodup hnodup
  · intro x hx
    exact hx
  · intro i hi
    simp at hi
  · intro i hm
    obtain ⟨q, hl, hdue, _⟩ := hm
    exact Or.inr (List.mem_map.mpr
      ⟨(i, q), List.mem_filter.mpr ⟨lookupOpt_mem hl, decide_eq_true hdue⟩, rfl⟩)

/-- C8: One tick of the message-queue retry processor keeps every pending
message's retry count at or below `max_retry_attempts`; it resends only
messages that were in the pending set at the start of the tick (a message
already in a terminal status has been removed from the pending set and
receives no further retry) and only with a retry count at or below the
maximum; and every due message already at the maximum transitions to the
terminal `Undeliverable` status and leaves the pending set. -/
theorem retry_processor_bounds (cfg : MessageQueueConfig) (now : Nat)
    (pending : List (Nat × QueuedMessage))
    (hnodup : (pending.map Prod.fst).Nodup)
    (hbound : ∀ e ∈ pending, e.2.retry_count ≤ cfg.max_retry_attempts) :
    (∀ e ∈ (start_retry_processor_tick cfg now true pending).pending,
      e.2.retry_count ≤ cfg.max_retry_attempts) ∧
    (∀ r ∈ (start_retry_processor_tick cfg now true pending).resent,
      r.2 ≤ cfg.max_retry_attempts ∧ r.1 ∈ pending.map Prod.fst) ∧
    (∀ e ∈ pending, e.2.next_retry_at ≤ now →
      e.2.retry_count = cfg.max_retry_attempts →
      e.1 ∈ (start_retry_processor_tick cfg now true pending).undeliverable ∧
      e.1 ∉ (start_retry_processor_tick cfg now true pending).pending.map Prod.fst) := by
  have hfin := tickInv_fold cfg now true pending _ _
    (tickInv_init cfg now pending hnodup hbound)
  have heq : start_retry_processor_tick cfg now true pending =
      ((pending.filter (fun e => decide (e.2.next_retry_at ≤ now))).map Prod.fst).foldl
        (processRetry cfg now true) ⟨pending, [], []⟩ := rfl
  rw [heq]
  refine ⟨hfin.bound, hfin.resent_ok, ?_⟩
  intro e he hdue hcnt
  have hl : lookupOpt pending e.1 = some e.2 :=
    lookupOpt_of_mem_nodup hnodup (by rw [Prod.mk.eta]; exact he)
  have hmd : MaxDue cfg now pending e.1 := ⟨e.2, hl, hdue, hcnt⟩
  rcases hfin.complete e.1 hmd with hund | hds
  · exact ⟨hund, (hfin.undeliv_ok e.1 hund).1⟩
  · simp at hds

/-- A concrete outbound message for the retry-processor witness. -/
def sampleMsg : Manager.OutboundMessage :=
  ⟨1, 2, [1], [], 0, some 1, false, none, none, false⟩

/-- Witness for `retry_processor_bounds`: with the default configuration
(maximum 10 retries), a pending message already at retry count 10 and due at
time 50 becomes `Undeliverable` and leaves the pending set. -/
theorem retry_processor_bounds_witness :
    1 ∈ (start_retry_processor_tick MessageQueueConfig.default 50 true
      [(1, ⟨sampleMsg, 10, 0, 0⟩), (2, ⟨sampleMsg, 3, 0, 100⟩)]).undeliverable ∧
    1 ∉ ((start_retry_processor_tick MessageQueueConfig.default 50 true
      [(1, ⟨sampleMsg, 10, 0, 0⟩), (2, ⟨sampleMsg, 3, 0, 100⟩)]).pending.map Prod.fst) :=
  (retry_processor_bounds MessageQueueConfig.default 50
      [(1, ⟨sampleMsg, 10, 0, 0⟩), (2, ⟨sampleMsg, 3, 0, 100⟩)]
      (by decide) (by decide)).2.2
    (1, ⟨sampleMsg, 10, 0, 0⟩) (by decide) (by decide) (by decide)

end MessageQueue

end Mesh
